import Mathlib

/-!
# ArduinoRAMUploader: a shallow embedding of `src/main.cpp`

The sketch drives a 64 KiB byte-wide static RAM from an AVR Arduino: the
address goes out through a two-stage serial-in/parallel-out shift register,
the data bus is eight GPIO pins, and images are moved between the chip and
files on an SD card under control of a serial command line.

The embedding has three layers.

* The board (`Board`): the GPIO direction and output registers, the shift
  register and its output latch, and the RAM cells.  The Arduino core
  primitives `pinMode`, `digitalWrite`, `digitalRead` and `shiftOut` are
  modelled on the AVR core, and every pin change is followed by `settle`,
  which is where the external hardware reacts.
* The machine (`Machine`): the board plus the SD card contents and the
  serial output.
* The sketch: every function of `main.cpp` under its own name, loops
  written with `forLoop`, machine integers as `Nat` with explicit
  reductions (`unsigned int` is 16 bits wide on AVR, `byte` is 8 bits).
  `while (1);` is the outcome `Outcome.halted`.

The theorems about the chip are stated for boards in the configuration the
sketch itself establishes: `Wired` (the `pinMode` calls of `setup()`),
`Selected` (`SelectRAMChip(HIGH)`), `BusOut` and `BusIn` (`SetDataBus`).
`sketch_ready` shows that the sketch, started from reset, is in the state
`Ready` between any two commands.
-/

namespace RAMUploader

/-! ## Constants of the sketch -/

abbrev Byte := Fin 256

def LOW : Nat := 0
def HIGH : Nat := 1
def INPUT : Nat := 0
def OUTPUT : Nat := 1
def INPUT_PULLUP : Nat := 2

def RAM_DUMP_FILE_NAME : String := "data.bin"
def RAM_D0 : Nat := 2
def RAM_D7 : Nat := 9
/-- Pin `A1` of the AVR boards (SER of the shift register). -/
def SHIFT_DATA : Nat := 15
/-- Pin `A2` (SCK of the shift register). -/
def SHIFT_CLK : Nat := 16
/-- Pin `A3` (RCK of the shift register). -/
def SHIFT_LATCH : Nat := 17
/-- Pin `A4`. -/
def WRITE_EN : Nat := 18
def RAM_OE : Nat := 10
/-- Pin `A5`. -/
def RAM_CS : Nat := 19
/-- Pin `A0`. -/
def SD_CS_PIN : Nat := 14

def PART_SIZE : Nat := 128
def RAM_CHIP_CAPACITY : Nat := 65536
def DUMP_CHUNK_SIZE : Nat := 32
def DEBUG_SERIAL : Bool := true

/-! ## Control flow -/

/-- The C loop `for (i = 0; i < n; i++) body(i)` over a state: iteration
`k` runs on the state left by iterations `0 .. k-1`. -/
def forLoop {σ : Type} (n : Nat) (body : Nat → σ → σ) (s : σ) : σ :=
  match n with
  | 0 => s
  | k + 1 => body k (forLoop k body s)

/-! ## The board -/

/-- One access of the sketch to a GPIO register. -/
inductive Event where
  | mode (pin : Nat) (m : Nat)
  | write (pin : Nat) (level : Bool)
  deriving DecidableEq, Repr

/-- State of the hardware: `dir` and `out` are the direction and output
registers of the GPIO pins, `shiftReg` is the content of the two cascaded
8-bit shift-register stages (the bit shifted in last is bit 0), `latched` is
what their output latch presents on the sixteen address lines, `mem` the
RAM cells, and `trace` the register accesses made so far, oldest first. -/
structure Board where
  dir : Nat → Bool
  out : Nat → Bool
  shiftReg : Nat
  latched : Nat
  mem : Nat → Byte
  trace : List Event

/-- The pin is an output and drives its line high. -/
def drivenHigh (b : Board) (pin : Nat) : Bool := b.dir pin && b.out pin

/-- The pin is an output and drives its line low.  The control lines of the
chip are active low; a line that the controller does not drive is taken to
be inactive. -/
def drivenLow (b : Board) (pin : Nat) : Bool := b.dir pin && !b.out pin

/-- The byte the controller puts on the data lines: line `Dk` carries bit
`k`. -/
def busValue (b : Board) : Nat :=
  forLoop 8 (fun k acc => acc + (drivenHigh b (RAM_D0 + k)).toNat * 2 ^ k) 0

/-- The chip drives the data lines: selected, output enabled, not writing. -/
def chipDrives (b : Board) : Bool :=
  drivenLow b RAM_CS && drivenLow b RAM_OE && !drivenLow b WRITE_EN

/-- Reaction of the external hardware to a change of the pin registers from
`old` to `new`: a rising edge of the clock line shifts the level of the data
line into the shift register, a rising edge of the latch line copies the
shift register to the address lines, and while write-enable and chip-select
are both low the addressed cell takes the value of the data lines.  The chip
is ideal: byte cells addressed by the latched outputs of the shift register,
written on a write-enable low pulse, read through `digitalRead` while
output-enable is low; no timing, no faults. -/
def settle (old new : Board) : Board :=
  let sr := if !drivenHigh old SHIFT_CLK && drivenHigh new SHIFT_CLK
    then (2 * new.shiftReg + (drivenHigh new SHIFT_DATA).toNat) % 65536
    else new.shiftReg
  let la := if !drivenHigh old SHIFT_LATCH && drivenHigh new SHIFT_LATCH
    then new.shiftReg else new.latched
  let me := if drivenLow new WRITE_EN && drivenLow new RAM_CS
    then Function.update new.mem la (Fin.ofNat (busValue new)) else new.mem
  { new with shiftReg := sr, latched := la, mem := me }

/-- The register update of `pinMode` on AVR: `INPUT` clears the direction
and output bits of the pin, `INPUT_PULLUP` clears the direction bit and sets
the output bit, every other value sets the direction bit. -/
def setMode (pin m : Nat) (b : Board) : Board :=
  let b1 : Board :=
    if m = INPUT then
      { b with dir := Function.update b.dir pin false, out := Function.update b.out pin false }
    else if m = INPUT_PULLUP then
      { b with dir := Function.update b.dir pin false, out := Function.update b.out pin true }
    else
      { b with dir := Function.update b.dir pin true }
  { b1 with trace := b.trace ++ [Event.mode pin m] }

/-- The core's `pinMode`. -/
def pinMode (pin m : Nat) (b : Board) : Board :=
  settle b (setMode pin m b)

/-- Set the output bit of a pin and record the access. -/
def setPort (pin : Nat) (level : Bool) (b : Board) : Board :=
  { b with out := Function.update b.out pin level,
           trace := b.trace ++ [Event.write pin level] }

/-- The core's `digitalWrite`: `LOW` clears the output bit of the pin, every
other value sets it. -/
def digitalWrite (pin val : Nat) (b : Board) : Board :=
  settle b (setPort pin (val != LOW) b)

/-- The core's `digitalRead`: the level of the pin's line.  An output pin
reads back what it drives; an input pin on the data bus reads the bit the
chip drives, and reads low when nothing drives the line. -/
def digitalRead (pin : Nat) (b : Board) : Nat :=
  if b.dir pin then (b.out pin).toNat
  else if RAM_D0 ≤ pin ∧ pin ≤ RAM_D7 ∧ chipDrives b = true
    then (b.mem b.latched).val / 2 ^ (pin - RAM_D0) % 2
    else 0

/-- The core's `shiftOut` with `MSBFIRST`: eight times, put bit 7 of `val`
on the data pin, shift `val` left, and pulse the clock pin high then low.
`val` is a `uint8_t`. -/
def shiftOut (dataPin clockPin val : Nat) (b : Board) : Board :=
  (forLoop 8 (fun _ (st : Nat × Board) =>
    let b1 := digitalWrite dataPin (if st.1 / 128 % 2 ≠ 0 then 1 else 0) st.2
    let v := st.1 * 2 % 256
    let b2 := digitalWrite clockPin HIGH b1
    (v, digitalWrite clockPin LOW b2)) (val % 256, b)).2

/-! ## Chip access (`SetAddress`, `WriteRAM`, `ReadRAM`, `SetDataBus`,
`SelectRAMChip`) -/

/-- `void SetAddress(unsigned int address, bool outputEnable)`. -/
def SetAddress (address : Nat) (outputEnable : Bool) (b : Board) : Board :=
  let address := address % 65536
  let b := shiftOut SHIFT_DATA SHIFT_CLK (address / 256) b
  let b := shiftOut SHIFT_DATA SHIFT_CLK address b
  let b := digitalWrite RAM_OE (!outputEnable).toNat b
  let b := digitalWrite SHIFT_LATCH LOW b
  let b := digitalWrite SHIFT_LATCH HIGH b
  digitalWrite SHIFT_LATCH LOW b

/-- `byte ReadRAM(unsigned int address)`: the loop runs `pin` from `RAM_D7`
down to `RAM_D0`; iteration `k` reads pin `RAM_D7 - k`. -/
def ReadRAM (address : Nat) (b : Board) : Nat × Board :=
  let b := SetAddress address true b
  let data := forLoop (RAM_D7 + 1 - RAM_D0) (fun k data =>
    (data * 2 + digitalRead (RAM_D7 - k) b) % 256) 0
  (data, b)

/-- `void SetDataBus(int io)`. -/
def SetDataBus (io : Nat) (b : Board) : Board :=
  forLoop (RAM_D7 + 1 - RAM_D0) (fun k b => pinMode (RAM_D0 + k) io b) b

/-- `void WriteRAM(unsigned int address, byte data)`. -/
def WriteRAM (address data : Nat) (b : Board) : Board :=
  let b := SetAddress address false b
  let st := forLoop (RAM_D7 + 1 - RAM_D0) (fun k (st : Nat × Board) =>
    (st.1 / 2, digitalWrite (RAM_D0 + k) (st.1 % 2) st.2)) (data % 256, b)
  let b := digitalWrite WRITE_EN LOW st.2
  digitalWrite WRITE_EN HIGH b

/-- `void SelectRAMChip(byte onOff)`. -/
def SelectRAMChip (onOff : Nat) (b : Board) : Board :=
  let b := pinMode WRITE_EN onOff b
  let b := digitalWrite WRITE_EN onOff b
  let b := pinMode RAM_CS OUTPUT b
  if onOff = 1 then digitalWrite RAM_CS LOW b else digitalWrite RAM_CS HIGH b

/-- The board after reset: every pin an input with its output bit clear. -/
def resetBoard (mem : Nat → Byte) : Board :=
  { dir := fun _ => false, out := fun _ => false, shiftReg := 0, latched := 0,
    mem := mem, trace := [] }

/-- The five `pinMode` calls of `setup()`. -/
def setupPins (b : Board) : Board :=
  let b := pinMode RAM_OE OUTPUT b
  let b := pinMode SHIFT_DATA OUTPUT b
  let b := pinMode SHIFT_CLK OUTPUT b
  let b := pinMode SHIFT_LATCH OUTPUT b
  pinMode WRITE_EN OUTPUT b

/-! ## The SD card and the serial port -/

/-- The SD card: `ok` is what `SD.begin` returns, `files` maps a name to the
content of the file of that name, `canCreate` says for which names
`SD.open(name, FILE_WRITE)` succeeds in creating a file. -/
structure SDCard where
  ok : Bool
  files : String → Option (List Byte)
  canCreate : String → Bool

/-- Result of `SD.exists`. -/
def SDCard.fileExists (sd : SDCard) (name : String) : Bool := (sd.files name).isSome

/-- Append one byte to a file (`File::write` on a file open for writing). -/
def SDCard.append (sd : SDCard) (name : String) (x : Byte) : SDCard :=
  { sd with files := Function.update sd.files name (some ((sd.files name).getD [] ++ [x])) }

/-- Create an empty file. -/
def SDCard.create (sd : SDCard) (name : String) : SDCard :=
  { sd with files := Function.update sd.files name (some []) }

/-- What the sketch has sent over the serial port: `lines` are the lines
ended by a `println`, oldest first, without their line ends; `cur` is the
text sent after the last line end. -/
structure SerialPort where
  lines : List String
  cur : String
  deriving DecidableEq, Repr

/-- The machine: board, SD card and serial output. -/
structure Machine where
  board : Board
  sd : SDCard
  serial : SerialPort

/-- `Serial.print` of a string. -/
def Machine.print (t : String) (m : Machine) : Machine :=
  { m with serial := { m.serial with cur := m.serial.cur ++ t } }

/-- `Serial.print` of a single `char`. -/
def Machine.printChar (c : Char) (m : Machine) : Machine :=
  { m with serial := { m.serial with cur := m.serial.cur.push c } }

/-- `Serial.println` of a string. -/
def Machine.println (t : String) (m : Machine) : Machine :=
  { m with serial := { lines := m.serial.lines ++ [m.serial.cur ++ t], cur := "" } }

/-- `Serial.print` of an unsigned number: its decimal digits. -/
def Machine.printNum (n : Nat) (m : Machine) : Machine := m.print (toString n)

/-- `Serial.println` of an unsigned number. -/
def Machine.printlnNum (n : Nat) (m : Machine) : Machine := m.println (toString n)

/-- A function of the sketch either returns or enters `while (1);`. -/
inductive Outcome where
  | returned (m : Machine)
  | halted (m : Machine)

/-- Run `f` after `o`, if `o` returned. -/
def Outcome.andThen (o : Outcome) (f : Machine → Outcome) : Outcome :=
  match o with
  | Outcome.returned m => f m
  | Outcome.halted m => Outcome.halted m

/-- The machine an outcome ends in. -/
def Outcome.machine : Outcome → Machine
  | Outcome.returned m => m
  | Outcome.halted m => m

/-- The outcome is the endless loop. -/
def Outcome.isHalted : Outcome → Bool
  | Outcome.returned _ => false
  | Outcome.halted _ => true

/-! ## Library functions used by the sketch -/

/-- One lowercase hexadecimal digit. -/
def hexDigit (d : Nat) : Char := if d < 10 then Char.ofNat (48 + d) else Char.ofNat (87 + d)

/-- The hexadecimal digits of `n`, most significant first; `fuel` bounds the
number of digits. -/
def hexDigits : Nat → Nat → List Char
  | 0, _ => []
  | fuel + 1, n => if n < 16 then [hexDigit n] else hexDigits fuel (n / 16) ++ [hexDigit (n % 16)]

/-- The conversion `%0<width>x` of `sprintf`: lowercase hexadecimal, padded
on the left with zeros to at least `width` characters. -/
def fmtHex (width n : Nat) : List Char :=
  let ds := hexDigits (n + 1) n
  List.replicate (width - ds.length) '0' ++ ds

/-- `File::readBytes(buf, n)` at position `pos` of a file with content
`content`: copies the bytes that are left, at most `n`, to the start of
`buf`; returns the buffer and the new position. -/
def readBytes (content : List Byte) (pos : Nat) (buf : List Nat) (n : Nat) : List Nat × Nat :=
  let got := ((content.drop pos).take n).map Fin.val
  (got ++ buf.drop got.length, pos + got.length)

/-- `String::toCharArray(buf, bufsize)`: the first `bufsize - 1` characters. -/
def toCharArray (str : String) (bufsize : Nat) : List Char := str.toList.take (bufsize - 1)

/-- `strtok(buf, " ")`, first call: skip leading spaces; no token if nothing
is left; else the token runs up to the next space or the end. -/
def strtok (buf : List Char) : Option String :=
  let rest := buf.dropWhile (fun c => c == ' ')
  if rest.isEmpty then none else some (String.mk (rest.takeWhile (fun c => c != ' ')))

/-- `String::startsWith`. -/
def startsWith (str pre : String) : Bool := pre.toList.isPrefixOf str.toList

/-! ## The sketch -/

/-- `void PrintFromBuf(char buf[], int size)`. -/
def PrintFromBuf (buf : List Char) (size : Nat) (m : Machine) : Machine :=
  forLoop size (fun i m => m.printChar (buf.getD i (Char.ofNat 0))) m

/-- Loop state of `WriteFileToRAM` and `CompareRAMContents`. -/
structure Xfer where
  buf : List Nat
  pos : Nat
  addr : Nat
  fail : Bool
  m : Machine

/-- Body of the inner loop of `WriteFileToRAM`:
`WriteRAM(addr, buf[j]); addr++;`. -/
def writeByteStep (j : Nat) (st : Xfer) : Xfer :=
  { st with m := { st.m with board := WriteRAM st.addr (st.buf.getD j 0) st.m.board },
            addr := (st.addr + 1) % 65536 }

/-- Body of the outer loop of `WriteFileToRAM`: read one chunk, write its
bytes. -/
def writeChunkStep (content : List Byte) (_i : Nat) (st : Xfer) : Xfer :=
  let r := readBytes content st.pos st.buf PART_SIZE
  forLoop PART_SIZE writeByteStep { st with buf := r.1, pos := r.2 }

/-- `void WriteFileToRAM(const char* filename)`.  A failed `SD.open` gives a
file object of size 0. -/
def WriteFileToRAM (filename : String) (m : Machine) : Machine :=
  let content := (m.sd.files filename).getD []
  let size := content.length % 4294967296
  let partCount := size / PART_SIZE % 65536
  let m := m.print "Starting upload: "
  let m := m.printNum size
  let m := m.println " bytes to write."
  let m := { m with board := SetDataBus OUTPUT m.board }
  let st := forLoop partCount (writeChunkStep content)
    { buf := List.replicate PART_SIZE 0, pos := 0, addr := 0, fail := false, m := m }
  st.m

/-- Body of the inner loop of `CompareRAMContents`: read the cell, compare
it with `buf[j]`, report and record a mismatch, advance the address. -/
def compareByteStep (j : Nat) (st : Xfer) : Xfer :=
  let rd := ReadRAM st.addr st.m.board
  let rByte := rd.1
  let fByte := st.buf.getD j 0
  let m1 : Machine := { st.m with board := rd.2 }
  let st1 : Xfer :=
    if rByte ≠ fByte then
      let m2 := if DEBUG_SERIAL then
        (((((m1.print "Compare failed at address ").printNum st.addr).print
          " Expected: ").printNum fByte).print " Got: ").printlnNum rByte
        else m1
      { st with m := m2, fail := true }
    else { st with m := m1 }
  { st1 with addr := (st.addr + 1) % 65536 }

/-- Body of the outer loop of `CompareRAMContents`. -/
def compareChunkStep (content : List Byte) (_i : Nat) (st : Xfer) : Xfer :=
  let r := readBytes content st.pos st.buf PART_SIZE
  forLoop PART_SIZE compareByteStep { st with buf := r.1, pos := r.2 }

/-- `bool CompareRAMContents(const char* filename)`. -/
def CompareRAMContents (filename : String) (m : Machine) : Bool × Machine :=
  let content := (m.sd.files filename).getD []
  let size := content.length % 4294967296
  let partCount := size / PART_SIZE % 65536
  let m := m.print "Starting integrity check: "
  let m := m.print filename
  let m := m.print " "
  let m := m.printNum size
  let m := m.println " bytes to check."
  let m := { m with board := SetDataBus INPUT m.board }
  let st := forLoop partCount (compareChunkStep content)
    { buf := List.replicate PART_SIZE 0, pos := 0, addr := 0, fail := false, m := m }
  (!st.fail, st.m)

/-- `void UploadFileToRAM(const char* filename)`. -/
def UploadFileToRAM (filename : String) (m : Machine) : Outcome :=
  if !m.sd.fileExists filename then
    Outcome.returned ((m.print "Could not find dump file ").println filename)
  else
    let m := { m with board := SelectRAMChip HIGH m.board }
    let m := m.println "Writing file to RAM"
    let m := WriteFileToRAM filename m
    let m := m.println "Data upload complete."
    let r := CompareRAMContents filename m
    if !r.1 then
      Outcome.halted (r.2.println "Memory check failed. Abort.")
    else
      let m := r.2.println "Integrity check passed."
      Outcome.returned { m with board := SelectRAMChip LOW m.board }

/-- `void FillWithByte(byte b)`. -/
def FillWithByte (b : Nat) (m : Machine) : Machine :=
  let b := b % 256
  let m := m.print "Filling memory with byte "
  let m := m.printlnNum b
  let board := SelectRAMChip HIGH m.board
  let board := SetDataBus OUTPUT board
  let board := forLoop RAM_CHIP_CAPACITY (fun i board => WriteRAM i b board) board
  let board := SelectRAMChip LOW board
  { m with board := board }.println "Complete"

/-- Loop state of `DumpRAM`. -/
structure DumpState where
  addr : Nat
  data : List Nat
  m : Machine

/-- Body of the read loop of `DumpRAM`: `data[j] = ReadRAM(addr); addr++;`. -/
def dumpReadStep (j : Nat) (st : DumpState) : DumpState :=
  let rd := ReadRAM st.addr st.m.board
  { data := st.data.set j rd.1, addr := (st.addr + 1) % 65536,
    m := { st.m with board := rd.2 } }

/-- Body of the print loop of `DumpRAM`: `sprintf(buf, "%02x ", data[k])`,
then `PrintFromBuf`. -/
def dumpPrintStep (data : List Nat) (k : Nat) (m : Machine) : Machine :=
  let buf := fmtHex 2 (data.getD k 0) ++ [' ']
  PrintFromBuf buf buf.length m

/-- Body of the outer loop of `DumpRAM`: read one row into `data`, print
the row address with `"%04x:  "`, the bytes, and the line end. -/
def dumpRowStep (i : Nat) (st : DumpState) : DumpState :=
  let st := forLoop DUMP_CHUNK_SIZE dumpReadStep
    { st with data := List.replicate DUMP_CHUNK_SIZE 0 }
  let chunkIndex := i * DUMP_CHUNK_SIZE % 65536
  let buf := fmtHex 4 chunkIndex ++ [':', ' ', ' ']
  let m := PrintFromBuf buf buf.length st.m
  let m := forLoop DUMP_CHUNK_SIZE (dumpPrintStep st.data) m
  { st with m := m.println "" }

/-- `void DumpRAM()`. -/
def DumpRAM (m : Machine) : Machine :=
  let m : Machine := { m with board := SelectRAMChip HIGH m.board }
  let ramSize := RAM_CHIP_CAPACITY
  let partCount := ramSize / DUMP_CHUNK_SIZE % 65536
  let m : Machine := { m with board := SetDataBus INPUT m.board }
  let st := forLoop partCount dumpRowStep
    { addr := 0, data := List.replicate DUMP_CHUNK_SIZE 0, m := m }
  { st.m with board := SelectRAMChip LOW st.m.board }

/-- Body of the loop of `SaveRAMToFile`: `b = ReadRAM(i); datafile.write(b);`,
where the write reaches the card only if the file was opened. -/
def saveByteStep (filename : String) (opened : Bool) (i : Nat) (m : Machine) : Machine :=
  let rd := ReadRAM i m.board
  { m with board := rd.2,
           sd := if opened then m.sd.append filename (Fin.ofNat rd.1) else m.sd }

/-- `void SaveRAMToFile(char* filename)`.  When the file cannot be created
the sketch reports it and goes on; the writes then go nowhere. -/
def SaveRAMToFile (filename : String) (m : Machine) : Machine :=
  if m.sd.fileExists filename then
    ((m.print "File with name ").print filename).println " already exists."
  else
    let opened := m.sd.canCreate filename
    let m : Machine := if opened then { m with sd := m.sd.create filename }
      else (m.print "Could not create file ").println filename
    let m : Machine := { m with board := SelectRAMChip HIGH m.board }
    let m : Machine := { m with board := SetDataBus INPUT m.board }
    let m := forLoop RAM_CHIP_CAPACITY (saveByteStep filename opened) m
    let m := m.println "Dump complete"
    { m with board := SelectRAMChip LOW m.board }

/-- `void setup()`: `Serial.begin` and `delay` leave the modelled state
alone; `SD.begin` reports whether the card is usable. -/
def setup (m : Machine) : Outcome :=
  if !m.sd.ok then
    Outcome.halted (m.println "Card failed, or not present")
  else
    UploadFileToRAM RAM_DUMP_FILE_NAME { m with board := setupPins m.board }

/-- One pass through the body of `while (1)` in `loop()` with the string
`str` read from the serial port. -/
def loopBody (str : String) (m : Machine) : Outcome :=
  if startsWith str "cdump" then
    Outcome.returned (DumpRAM m)
  else if startsWith str "load" then
    let inputBuf := toCharArray str 64
    match strtok inputBuf with
    | some pointer => UploadFileToRAM pointer m
    | none => Outcome.returned m
  else if startsWith str "fzero" then
    Outcome.returned (FillWithByte 0 m)
  else if startsWith str "fone" then
    Outcome.returned (FillWithByte 0xFF m)
  else if startsWith str "f55" then
    Outcome.returned (FillWithByte 0x55 m)
  else if startsWith str "faa" then
    Outcome.returned (FillWithByte 0xAA m)
  else if startsWith str "fdump" then
    let inputBuf := toCharArray str 64
    match strtok inputBuf with
    | some pointer => Outcome.returned (SaveRAMToFile pointer m)
    | none => Outcome.returned m
  else
    Outcome.returned m

/-- `void loop()` fed with the strings that arrive on the serial port, in
order: a command that halts ends the run. -/
def loop (inputs : List String) (m : Machine) : Outcome :=
  match inputs with
  | [] => Outcome.returned m
  | str :: rest => (loopBody str m).andThen (loop rest)

/-- The whole sketch: `setup()`, then `loop()`. -/
def sketch (inputs : List String) (m : Machine) : Outcome :=
  (setup m).andThen (loop inputs)

/-- A machine just after reset, with the given RAM content and SD card. -/
def resetMachine (mem : Nat → Byte) (sd : SDCard) : Machine :=
  { board := resetBoard mem, sd := sd, serial := { lines := [], cur := "" } }

/-- A machine after reset and the `pinMode` calls of `setup()`. -/
def wiredMachine (mem : Nat → Byte) (sd : SDCard) : Machine :=
  { board := setupPins (resetBoard mem), sd := sd, serial := { lines := [], cur := "" } }

/-- A working SD card without files. -/
def emptyCard : SDCard := { ok := true, files := fun _ => none, canCreate := fun _ => true }

/-- A working SD card holding one file, `data.bin`, of 130 bytes `0x07`. -/
def sampleCard : SDCard :=
  { ok := true,
    files := fun n => if n = "data.bin" then some (List.replicate 130 7) else none,
    canCreate := fun _ => true }

/-- A machine after reset, the `pinMode` calls of `setup()` and
`SelectRAMChip(HIGH)`. -/
def selectedMachine (mem : Nat → Byte) (sd : SDCard) : Machine :=
  { board := SelectRAMChip HIGH (setupPins (resetBoard mem)), sd := sd,
    serial := { lines := [], cur := "" } }

/-- A file of 65664 bytes: 65536 bytes `0x00`, then 128 bytes `0x01`. -/
def oversizedFile : List Byte := List.replicate 65536 0 ++ List.replicate 128 1

/-- A working SD card whose only file, called `name`, is `oversizedFile`. -/
def oversizedCard (name : String) : SDCard :=
  { ok := true,
    files := fun n => if n = name then some oversizedFile else none,
    canCreate := fun _ => true }

/-! ## Invariants of the board used by the proofs -/

/-- The pins that `setup()` makes outputs are outputs and the shift clock
idles low. -/
def Wired (b : Board) : Prop :=
  b.dir SHIFT_DATA = true ∧ b.dir SHIFT_CLK = true ∧ b.dir SHIFT_LATCH = true ∧
    b.dir RAM_OE = true ∧ b.out SHIFT_CLK = false

/-- The state `SelectRAMChip(HIGH)` establishes: write-enable driven high,
chip-select driven low. -/
def Selected (b : Board) : Prop :=
  b.dir WRITE_EN = true ∧ b.out WRITE_EN = true ∧ b.dir RAM_CS = true ∧ b.out RAM_CS = false

/-- No write is in progress: write-enable and chip-select are not both low. -/
def Quiet (b : Board) : Prop :=
  (drivenLow b WRITE_EN && drivenLow b RAM_CS) = false

/-- The data pins are outputs (`SetDataBus(OUTPUT)`). -/
def BusOut (b : Board) : Prop := ∀ p, RAM_D0 ≤ p → p ≤ RAM_D7 → b.dir p = true

/-- The data pins are inputs (`SetDataBus(INPUT)`). -/
def BusIn (b : Board) : Prop := ∀ p, RAM_D0 ≤ p → p ≤ RAM_D7 → b.dir p = false

instance (b : Board) : Decidable (Wired b) := by unfold Wired; infer_instance
instance (b : Board) : Decidable (Selected b) := by unfold Selected; infer_instance
instance (b : Board) : Decidable (Quiet b) := by unfold Quiet; infer_instance


/-- One iteration of the loop of `shiftOut` on the shift-register pins. -/
def shiftBit (bit : Nat) (b : Board) : Board :=
  digitalWrite SHIFT_CLK LOW (digitalWrite SHIFT_CLK HIGH (digitalWrite SHIFT_DATA bit b))

/-- The bit `shiftOut` puts on the data pin: bit 7 of its `uint8_t`. -/
def msbOf (v : Nat) : Nat := if v / 128 % 2 ≠ 0 then 1 else 0

/-- The left shift of the `uint8_t` in `shiftOut`. -/
def shl8 (v : Nat) : Nat := v * 2 % 256

/-- The tail of `SetAddress`: drive output-enable, then pulse the latch
line low, high, low. -/
def latchAddress (v : Nat) (b : Board) : Board :=
  digitalWrite SHIFT_LATCH LOW (digitalWrite SHIFT_LATCH HIGH
    (digitalWrite SHIFT_LATCH LOW (digitalWrite RAM_OE v b)))

/-- What a run of pin writes that only touches the serial data and clock
pins leaves in place. -/
structure Shifted (b b' : Board) : Prop where
  wired : Wired b'
  dir : b'.dir = b.dir
  latched : b'.latched = b.latched
  out : ∀ p, p ≠ SHIFT_DATA → p ≠ SHIFT_CLK → b'.out p = b.out p
  mem : Quiet b → b'.mem = b.mem

/-- The register accesses of one `shiftOut` of `val`, most significant bit
first. -/
def shiftEvents (val : Nat) : List Event :=
  [7, 6, 5, 4, 3, 2, 1, 0].flatMap (fun k =>
    [Event.write SHIFT_DATA (decide (val / 2 ^ k % 2 = 1)),
     Event.write SHIFT_CLK true, Event.write SHIFT_CLK false])

/-- The loop of `WriteRAM` over the data pins, unrolled: bit `k` of `v` goes
to pin `RAM_D0 + k`. -/
def driveData (v : Nat) (b : Board) : Board :=
  digitalWrite 9 (v / 2 / 2 / 2 / 2 / 2 / 2 / 2 % 2)
  (digitalWrite 8 (v / 2 / 2 / 2 / 2 / 2 / 2 % 2)
  (digitalWrite 7 (v / 2 / 2 / 2 / 2 / 2 % 2)
  (digitalWrite 6 (v / 2 / 2 / 2 / 2 % 2)
  (digitalWrite 5 (v / 2 / 2 / 2 % 2)
  (digitalWrite 4 (v / 2 / 2 % 2)
  (digitalWrite 3 (v / 2 % 2)
  (digitalWrite 2 (v % 2) b)))))))

/-- The chip is not selected: chip-select is not driven low. -/
def Idle (b : Board) : Prop := drivenLow b RAM_CS = false

instance (b : Board) : Decidable (Idle b) := by unfold Idle; infer_instance

/-- The loop of `SetDataBus`, unrolled. -/
def modeData (io : Nat) (b : Board) : Board :=
  pinMode 9 io (pinMode 8 io (pinMode 7 io (pinMode 6 io
    (pinMode 5 io (pinMode 4 io (pinMode 3 io (pinMode 2 io b)))))))

/-- Loop invariant of `WriteFileToRAM` after `n` bytes, `n` up to twice the
capacity: the address counter is `n` reduced to 16 bits, the chip is selected
with the data pins as outputs, and the card and the serial output are as at
the start of the loop.  A cell `a` holds file byte `a + 65536` if the
counter has wrapped around and passed it again, else file byte `a` if the
counter has passed it, else what it held at the start. -/
def WriteInv (content : List Byte) (m0 : Machine) (n : Nat) (st : Xfer) : Prop :=
  st.addr = n % 65536 ∧ Wired st.m.board ∧ Selected st.m.board ∧ BusOut st.m.board ∧
    st.m.sd = m0.sd ∧ st.m.serial = m0.serial ∧
    ∀ a, st.m.board.mem a =
      if a < 65536 ∧ a + 65536 < n then content.getD (a + 65536) 0
      else if a < 65536 ∧ a < n then content.getD a 0
      else m0.board.mem a

/-- Loop invariant of `CompareRAMContents` after `n` bytes: the address
counter is `n`, the chip is selected with the data pins as inputs, the cells
and the card are as at the start, and no mismatch has been recorded exactly
when the cells below `n` equal the file bytes. -/
def CompareInv (content : List Byte) (m0 : Machine) (n : Nat) (st : Xfer) : Prop :=
  st.addr = n % 65536 ∧ Wired st.m.board ∧ Selected st.m.board ∧ BusIn st.m.board ∧
    st.m.sd = m0.sd ∧ st.m.board.mem = m0.board.mem ∧
    (st.fail = false ↔ ∀ a, a < n → content.getD a 0 = m0.board.mem a)

/-- Text of row `i` of the dump of a chip with content `mem`: the row
address as `%04x`, a colon and two spaces, then each of the 32 bytes as
`%02x` followed by one space. -/
def dumpRow (mem : Nat → Byte) (i : Nat) : String :=
  String.mk (fmtHex 4 (i * 32 % 65536) ++ [':', ' ', ' ']
    ++ ((List.range 32).map (fun k => fmtHex 2 (mem (i * 32 + k)).val ++ [' '])).flatten)

/-- Loop invariant of the read loop of `DumpRAM` after `j` bytes of the row
that starts at address `n`. -/
def DumpReadInv (m0 : Machine) (n j : Nat) (st : DumpState) : Prop :=
  st.addr = (n + j) % 65536 ∧ Wired st.m.board ∧ Selected st.m.board ∧ BusIn st.m.board ∧
    st.m.board.mem = m0.board.mem ∧ st.m.sd = m0.sd ∧ st.m.serial = m0.serial ∧
    st.data.length = 32 ∧ ∀ k, k < j → st.data.getD k 0 = (m0.board.mem (n + k)).val

/-- Loop invariant of the row loop of `DumpRAM` after `i` rows. -/
def DumpInv (m0 : Machine) (i : Nat) (st : DumpState) : Prop :=
  st.addr = i * 32 % 65536 ∧ Wired st.m.board ∧ Selected st.m.board ∧ BusIn st.m.board ∧
    st.m.board.mem = m0.board.mem ∧ st.m.sd = m0.sd ∧
    st.m.serial = { lines := m0.serial.lines ++ (List.range i).map (dumpRow m0.board.mem),
                    cur := "" }

/-- The state of the machine between two commands: the pins of `setup()`
configured, the chip not selected, the serial output at the start of a
line. -/
def Ready (m : Machine) : Prop := Wired m.board ∧ Idle m.board ∧ m.serial.cur = ""

/-! ## Facts about the board primitives -/

@[simp] theorem digitalWrite_dir (p v : Nat) (b : Board) : (digitalWrite p v b).dir = b.dir := rfl

@[simp] theorem digitalWrite_out (p v : Nat) (b : Board) :
    (digitalWrite p v b).out = Function.update b.out p (v != LOW) := rfl

@[simp] theorem digitalWrite_trace (p v : Nat) (b : Board) :
    (digitalWrite p v b).trace = b.trace ++ [Event.write p (v != LOW)] := rfl

theorem digitalWrite_shiftReg_of_ne {p : Nat} (v : Nat) (b : Board) (h : p ≠ SHIFT_CLK) :
    (digitalWrite p v b).shiftReg = b.shiftReg := by
  have e : (Function.update b.out p (v != LOW)) SHIFT_CLK = b.out SHIFT_CLK :=
    Function.update_noteq (Ne.symm h) _ _
  simp only [digitalWrite, setPort, settle, drivenHigh, e]
  cases b.dir SHIFT_CLK <;> cases b.out SHIFT_CLK <;> rfl

theorem digitalWrite_latched_of_ne {p : Nat} (v : Nat) (b : Board) (h : p ≠ SHIFT_LATCH) :
    (digitalWrite p v b).latched = b.latched := by
  have e : (Function.update b.out p (v != LOW)) SHIFT_LATCH = b.out SHIFT_LATCH :=
    Function.update_noteq (Ne.symm h) _ _
  simp only [digitalWrite, setPort, settle, drivenHigh, e]
  cases b.dir SHIFT_LATCH <;> cases b.out SHIFT_LATCH <;> rfl

/-- A pin write while no write cycle is open, and that opens none, leaves
the cells alone. -/
theorem digitalWrite_mem_of_quiet (p v : Nat) (b : Board)
    (h : Quiet (digitalWrite p v b)) : (digitalWrite p v b).mem = b.mem := by
  unfold Quiet drivenLow at h
  simp only [digitalWrite_dir, digitalWrite_out] at h
  simp only [digitalWrite, setPort, settle, drivenLow, h]
  rfl

theorem digitalWrite_shiftReg_clk_high (b : Board) (h : Wired b) :
    (digitalWrite SHIFT_CLK HIGH b).shiftReg
      = (2 * b.shiftReg + (b.out SHIFT_DATA).toNat) % 65536 := by
  obtain ⟨h1, h2, -, -, h5⟩ := h
  simp [digitalWrite, setPort, settle, drivenHigh, h1, h2, h5, HIGH, LOW, SHIFT_CLK, SHIFT_DATA] at *


theorem quiet_congr {b b' : Board} (hd : b'.dir = b.dir)
    (hw : b'.out WRITE_EN = b.out WRITE_EN) (hc : b'.out RAM_CS = b.out RAM_CS) :
    Quiet b' ↔ Quiet b := by
  unfold Quiet drivenLow
  rw [hd, hw, hc]

theorem Shifted.refl {b : Board} (h : Wired b) : Shifted b b :=
  ⟨h, rfl, rfl, fun _ _ _ => rfl, fun _ => rfl⟩

theorem Shifted.quiet_iff {b b' : Board} (h : Shifted b b') : Quiet b' ↔ Quiet b :=
  quiet_congr h.dir (h.out _ (by decide) (by decide)) (h.out _ (by decide) (by decide))

theorem Shifted.trans {a b c : Board} (h1 : Shifted a b) (h2 : Shifted b c) : Shifted a c where
  wired := h2.wired
  dir := h2.dir.trans h1.dir
  latched := h2.latched.trans h1.latched
  out := fun p hp hq => (h2.out p hp hq).trans (h1.out p hp hq)
  mem := fun hq => (h2.mem (h1.quiet_iff.mpr hq)).trans (h1.mem hq)

theorem shiftBit_shifted (bit : Nat) {b : Board} (h : Wired b) : Shifted b (shiftBit bit b) := by
  have hd : (shiftBit bit b).dir = b.dir := rfl
  have ho : ∀ p, p ≠ SHIFT_DATA → p ≠ SHIFT_CLK → (shiftBit bit b).out p = b.out p := by
    intro p hp hq
    simp [shiftBit, Function.update_apply, hp, hq]
  refine ⟨?_, hd, ?_, ho, ?_⟩
  · obtain ⟨h1, h2, h3, h4, -⟩ := h
    exact ⟨h1, h2, h3, h4, by simp [shiftBit, LOW]⟩
  · simp only [shiftBit]
    rw [digitalWrite_latched_of_ne _ _ (by decide), digitalWrite_latched_of_ne _ _ (by decide),
      digitalWrite_latched_of_ne _ _ (by decide)]
  · intro hq
    have q0 : ∀ b1 : Board, b1.dir = b.dir → b1.out WRITE_EN = b.out WRITE_EN →
        b1.out RAM_CS = b.out RAM_CS → Quiet b1 := fun b1 e1 e2 e3 =>
      (quiet_congr e1 e2 e3).mpr hq
    simp only [shiftBit]
    rw [digitalWrite_mem_of_quiet, digitalWrite_mem_of_quiet, digitalWrite_mem_of_quiet]
    · exact q0 _ rfl (by simp [Function.update_apply, WRITE_EN, SHIFT_DATA])
        (by simp [Function.update_apply, RAM_CS, SHIFT_DATA])
    · exact q0 _ rfl (by simp [Function.update_apply, WRITE_EN, SHIFT_DATA, SHIFT_CLK])
        (by simp [Function.update_apply, RAM_CS, SHIFT_DATA, SHIFT_CLK])
    · exact q0 _ rfl (by simp [Function.update_apply, WRITE_EN, SHIFT_DATA, SHIFT_CLK])
        (by simp [Function.update_apply, RAM_CS, SHIFT_DATA, SHIFT_CLK])

theorem shiftBit_shiftReg (bit : Nat) {b : Board} (h : Wired b) :
    (shiftBit bit b).shiftReg = (2 * b.shiftReg + (bit != LOW).toNat) % 65536 := by
  obtain ⟨h1, h2, h3, h4, h5⟩ := h
  have w1 : Wired (digitalWrite SHIFT_DATA bit b) :=
    ⟨h1, h2, h3, h4, by rw [digitalWrite_out, Function.update_noteq (by decide)]; exact h5⟩
  simp only [shiftBit]
  have e : (digitalWrite SHIFT_CLK LOW (digitalWrite SHIFT_CLK HIGH (digitalWrite SHIFT_DATA bit b))).shiftReg
      = (digitalWrite SHIFT_CLK HIGH (digitalWrite SHIFT_DATA bit b)).shiftReg := by
    simp [digitalWrite, setPort, settle, drivenHigh, LOW]
  rw [e, digitalWrite_shiftReg_clk_high _ w1, digitalWrite_shiftReg_of_ne _ _ (by decide)]
  simp

theorem shiftBit_trace (bit : Nat) (b : Board) :
    (shiftBit bit b).trace = b.trace ++ [Event.write SHIFT_DATA (bit != LOW),
      Event.write SHIFT_CLK true, Event.write SHIFT_CLK false] := by
  simp [shiftBit, HIGH, LOW]

theorem shiftOut_eq (val : Nat) (b : Board) :
    shiftOut SHIFT_DATA SHIFT_CLK val b =
      shiftBit (msbOf (shl8 (shl8 (shl8 (shl8 (shl8 (shl8 (shl8 (val % 256)))))))))
      (shiftBit (msbOf (shl8 (shl8 (shl8 (shl8 (shl8 (shl8 (val % 256))))))))
      (shiftBit (msbOf (shl8 (shl8 (shl8 (shl8 (shl8 (val % 256)))))))
      (shiftBit (msbOf (shl8 (shl8 (shl8 (shl8 (val % 256))))))
      (shiftBit (msbOf (shl8 (shl8 (shl8 (val % 256)))))
      (shiftBit (msbOf (shl8 (shl8 (val % 256))))
      (shiftBit (msbOf (shl8 (val % 256)))
      (shiftBit (msbOf (val % 256)) b))))))) := rfl

theorem msbOf_toNat (v : Nat) : (msbOf v != LOW).toNat = v / 128 % 2 := by
  unfold msbOf LOW
  split <;> simp <;> omega

theorem msbOf_bne (v : Nat) : (msbOf v != LOW) = decide (v / 128 % 2 = 1) := by
  unfold msbOf LOW
  split <;> simp <;> omega

theorem shiftOut_shifted (val : Nat) {b : Board} (h : Wired b) :
    Shifted b (shiftOut SHIFT_DATA SHIFT_CLK val b) := by
  rw [shiftOut_eq]
  have s1 := shiftBit_shifted (msbOf (val % 256)) h
  have s2 := s1.trans (shiftBit_shifted (msbOf (shl8 (val % 256))) s1.wired)
  have s3 := s2.trans (shiftBit_shifted (msbOf (shl8 (shl8 (val % 256)))) s2.wired)
  have s4 := s3.trans (shiftBit_shifted (msbOf (shl8 (shl8 (shl8 (val % 256))))) s3.wired)
  have s5 := s4.trans (shiftBit_shifted (msbOf (shl8 (shl8 (shl8 (shl8 (val % 256)))))) s4.wired)
  have s6 := s5.trans (shiftBit_shifted
    (msbOf (shl8 (shl8 (shl8 (shl8 (shl8 (val % 256))))))) s5.wired)
  have s7 := s6.trans (shiftBit_shifted
    (msbOf (shl8 (shl8 (shl8 (shl8 (shl8 (shl8 (val % 256)))))))) s6.wired)
  exact s7.trans (shiftBit_shifted
    (msbOf (shl8 (shl8 (shl8 (shl8 (shl8 (shl8 (shl8 (val % 256))))))))) s7.wired)

theorem shiftOut_shiftReg (val : Nat) {b : Board} (h : Wired b) :
    (shiftOut SHIFT_DATA SHIFT_CLK val b).shiftReg = (256 * b.shiftReg + val % 256) % 65536 := by
  rw [shiftOut_eq]
  have s1 := shiftBit_shifted (msbOf (val % 256)) h
  have s2 := shiftBit_shifted (msbOf (shl8 (val % 256))) s1.wired
  have s3 := shiftBit_shifted (msbOf (shl8 (shl8 (val % 256)))) s2.wired
  have s4 := shiftBit_shifted (msbOf (shl8 (shl8 (shl8 (val % 256))))) s3.wired
  have s5 := shiftBit_shifted (msbOf (shl8 (shl8 (shl8 (shl8 (val % 256)))))) s4.wired
  have s6 := shiftBit_shifted (msbOf (shl8 (shl8 (shl8 (shl8 (shl8 (val % 256))))))) s5.wired
  have s7 := shiftBit_shifted
    (msbOf (shl8 (shl8 (shl8 (shl8 (shl8 (shl8 (val % 256)))))))) s6.wired
  rw [shiftBit_shiftReg _ s7.wired, shiftBit_shiftReg _ s6.wired, shiftBit_shiftReg _ s5.wired,
    shiftBit_shiftReg _ s4.wired, shiftBit_shiftReg _ s3.wired, shiftBit_shiftReg _ s2.wired,
    shiftBit_shiftReg _ s1.wired, shiftBit_shiftReg _ h]
  simp only [msbOf_toNat, shl8]
  omega

theorem shiftOut_trace (val : Nat) (b : Board) :
    (shiftOut SHIFT_DATA SHIFT_CLK val b).trace = b.trace ++ shiftEvents (val % 256) := by
  rw [shiftOut_eq]
  simp only [shiftBit_trace, msbOf_bne, shl8, shiftEvents, List.flatMap_cons, List.flatMap_nil,
    List.append_assoc, List.cons_append, List.nil_append, List.append_nil]
  have e1 : val % 256 * 2 % 256 / 128 % 2 = val % 256 / 2 ^ 6 % 2 := by norm_num; omega
  have e2 : val % 256 * 2 % 256 * 2 % 256 / 128 % 2 = val % 256 / 2 ^ 5 % 2 := by norm_num; omega
  have e3 : val % 256 * 2 % 256 * 2 % 256 * 2 % 256 / 128 % 2 = val % 256 / 2 ^ 4 % 2 := by
    norm_num; omega
  have e4 : val % 256 * 2 % 256 * 2 % 256 * 2 % 256 * 2 % 256 / 128 % 2
      = val % 256 / 2 ^ 3 % 2 := by norm_num; omega
  have e5 : val % 256 * 2 % 256 * 2 % 256 * 2 % 256 * 2 % 256 * 2 % 256 / 128 % 2
      = val % 256 / 2 ^ 2 % 2 := by norm_num; omega
  have e6 : val % 256 * 2 % 256 * 2 % 256 * 2 % 256 * 2 % 256 * 2 % 256 * 2 % 256 / 128 % 2
      = val % 256 / 2 ^ 1 % 2 := by norm_num; omega
  have e7 : val % 256 * 2 % 256 * 2 % 256 * 2 % 256 * 2 % 256 * 2 % 256 * 2 % 256 * 2 % 256
      / 128 % 2 = val % 256 / 2 ^ 0 % 2 := by norm_num; omega
  have e0 : val % 256 / 128 % 2 = val % 256 / 2 ^ 7 % 2 := by norm_num
  rw [e0, e1, e2, e3, e4, e5, e6, e7]

/-! ## `SetAddress` -/

theorem shiftOut_dir (val : Nat) (b : Board) :
    (shiftOut SHIFT_DATA SHIFT_CLK val b).dir = b.dir := by
  rw [shiftOut_eq]
  simp only [shiftBit, digitalWrite_dir]

theorem shiftOut_out (val : Nat) (b : Board) (p : Nat)
    (h1 : p ≠ SHIFT_DATA) (h2 : p ≠ SHIFT_CLK) :
    (shiftOut SHIFT_DATA SHIFT_CLK val b).out p = b.out p := by
  rw [shiftOut_eq]
  simp only [shiftBit, digitalWrite_out, Function.update_apply, h1, h2, if_false]

theorem SetAddress_eq (a : Nat) (oe : Bool) (b : Board) :
    SetAddress a oe b = latchAddress (!oe).toNat (shiftOut SHIFT_DATA SHIFT_CLK (a % 65536)
      (shiftOut SHIFT_DATA SHIFT_CLK (a % 65536 / 256) b)) := by
  simp only [SetAddress, latchAddress]

theorem latchAddress_dir (v : Nat) (b : Board) : (latchAddress v b).dir = b.dir := by
  simp only [latchAddress, digitalWrite_dir]

theorem latchAddress_out (v : Nat) (b : Board) (p : Nat) (h3 : p ≠ RAM_OE)
    (h4 : p ≠ SHIFT_LATCH) : (latchAddress v b).out p = b.out p := by
  simp only [latchAddress, digitalWrite_out, Function.update_apply, h3, h4, if_false]

theorem latchAddress_out_oe (v : Nat) (b : Board) :
    (latchAddress v b).out RAM_OE = (v != LOW) := by
  simp only [latchAddress, digitalWrite_out]
  rw [Function.update_noteq (by decide), Function.update_noteq (by decide),
    Function.update_noteq (by decide), Function.update_same]

theorem digitalWrite_latch_low (b : Board) :
    (digitalWrite SHIFT_LATCH LOW b).latched = b.latched := by
  simp [digitalWrite, setPort, settle, drivenHigh, LOW]

theorem digitalWrite_latch_high (b : Board) (h : b.dir SHIFT_LATCH = true)
    (h0 : b.out SHIFT_LATCH = false) :
    (digitalWrite SHIFT_LATCH HIGH b).latched = b.shiftReg := by
  have e : (digitalWrite SHIFT_LATCH HIGH b).latched
      = if !drivenHigh b SHIFT_LATCH && (b.dir SHIFT_LATCH &&
          Function.update b.out SHIFT_LATCH (HIGH != LOW) SHIFT_LATCH)
        then b.shiftReg else b.latched := rfl
  rw [e, Function.update_same]
  simp [drivenHigh, h, h0, HIGH, LOW]

theorem latchAddress_latched (v : Nat) (b : Board) (h : b.dir SHIFT_LATCH = true) :
    (latchAddress v b).latched = b.shiftReg := by
  have e2 : (digitalWrite SHIFT_LATCH LOW (digitalWrite RAM_OE v b)).shiftReg = b.shiftReg := by
    rw [digitalWrite_shiftReg_of_ne _ _ (by decide), digitalWrite_shiftReg_of_ne _ _ (by decide)]
  simp only [latchAddress]
  rw [digitalWrite_latch_low, digitalWrite_latch_high _ (by simp only [digitalWrite_dir]; exact h)
    (by rw [digitalWrite_out, Function.update_same]; rfl), e2]

theorem latchAddress_mem (v : Nat) (b : Board) (hq : Quiet b) :
    (latchAddress v b).mem = b.mem := by
  have q0 : ∀ b1 : Board, b1.dir = b.dir → b1.out WRITE_EN = b.out WRITE_EN →
      b1.out RAM_CS = b.out RAM_CS → Quiet b1 := fun b1 e1 e2 e3 =>
    (quiet_congr e1 e2 e3).mpr hq
  simp only [latchAddress]
  rw [digitalWrite_mem_of_quiet, digitalWrite_mem_of_quiet, digitalWrite_mem_of_quiet,
    digitalWrite_mem_of_quiet]
  all_goals
    refine q0 _ (by simp only [digitalWrite_dir]) ?_ ?_ <;>
    simp only [digitalWrite_out, Function.update_apply] <;> rfl

theorem SetAddress_dir (a : Nat) (oe : Bool) (b : Board) :
    (SetAddress a oe b).dir = b.dir := by
  rw [SetAddress_eq, latchAddress_dir, shiftOut_dir, shiftOut_dir]

theorem SetAddress_latched (a : Nat) (oe : Bool) {b : Board} (h : Wired b) :
    (SetAddress a oe b).latched = a % 65536 := by
  have s1 := shiftOut_shifted (a % 65536 / 256) h
  rw [SetAddress_eq, latchAddress_latched _ _ (by rw [shiftOut_dir, shiftOut_dir]; exact h.2.2.1),
    shiftOut_shiftReg _ s1.wired, shiftOut_shiftReg _ h]
  omega

theorem SetAddress_out (a : Nat) (oe : Bool) (b : Board) (p : Nat)
    (h1 : p ≠ SHIFT_DATA) (h2 : p ≠ SHIFT_CLK) (h3 : p ≠ RAM_OE) (h4 : p ≠ SHIFT_LATCH) :
    (SetAddress a oe b).out p = b.out p := by
  rw [SetAddress_eq, latchAddress_out _ _ _ h3 h4, shiftOut_out _ _ _ h1 h2,
    shiftOut_out _ _ _ h1 h2]

theorem SetAddress_out_oe (a : Nat) (oe : Bool) (b : Board) :
    (SetAddress a oe b).out RAM_OE = !oe := by
  rw [SetAddress_eq, latchAddress_out_oe]
  cases oe <;> rfl

theorem SetAddress_wired (a : Nat) (oe : Bool) {b : Board} (h : Wired b) :
    Wired (SetAddress a oe b) := by
  have s1 := shiftOut_shifted (a % 65536 / 256) h
  have s2 := shiftOut_shifted (a % 65536) s1.wired
  obtain ⟨w1, w2, w3, w4, w5⟩ := s2.wired
  unfold Wired
  rw [SetAddress_dir, SetAddress_eq, latchAddress_out _ _ _ (by decide) (by decide)]
  exact ⟨h.1, h.2.1, h.2.2.1, h.2.2.2.1, w5⟩

theorem SetAddress_quiet (a : Nat) (oe : Bool) (b : Board) :
    Quiet (SetAddress a oe b) ↔ Quiet b :=
  quiet_congr (SetAddress_dir a oe b)
    (SetAddress_out a oe b _ (by decide) (by decide) (by decide) (by decide))
    (SetAddress_out a oe b _ (by decide) (by decide) (by decide) (by decide))

theorem SetAddress_mem (a : Nat) (oe : Bool) {b : Board} (h : Wired b) (hq : Quiet b) :
    (SetAddress a oe b).mem = b.mem := by
  have s1 := shiftOut_shifted (a % 65536 / 256) h
  have s2 := shiftOut_shifted (a % 65536) s1.wired
  rw [SetAddress_eq, latchAddress_mem _ _ (s2.quiet_iff.mpr (s1.quiet_iff.mpr hq)),
    s2.mem (s1.quiet_iff.mpr hq), s1.mem hq]

theorem latchAddress_trace (v : Nat) (b : Board) :
    (latchAddress v b).trace = b.trace ++ [Event.write RAM_OE (v != LOW),
      Event.write SHIFT_LATCH false, Event.write SHIFT_LATCH true,
      Event.write SHIFT_LATCH false] := by
  simp [latchAddress, LOW, HIGH]

theorem SetAddress_trace (a : Nat) (oe : Bool) (b : Board) :
    (SetAddress a oe b).trace = b.trace ++ shiftEvents (a % 65536 / 256)
      ++ shiftEvents (a % 256)
      ++ [Event.write RAM_OE (!oe), Event.write SHIFT_LATCH false,
          Event.write SHIFT_LATCH true, Event.write SHIFT_LATCH false] := by
  have e1 : a % 65536 / 256 % 256 = a % 65536 / 256 := by omega
  have e2 : a % 65536 % 256 = a % 256 := by omega
  rw [SetAddress_eq, latchAddress_trace, shiftOut_trace, shiftOut_trace, e1, e2]
  cases oe <;> rfl

/-! ## `WriteRAM` and `ReadRAM` -/

theorem WriteRAM_eq (a d : Nat) (b : Board) :
    WriteRAM a d b = digitalWrite WRITE_EN HIGH (digitalWrite WRITE_EN LOW
      (driveData (d % 256) (SetAddress a false b))) := by
  simp only [WriteRAM, forLoop, driveData, RAM_D0, RAM_D7]

theorem driveData_dir (v : Nat) (b : Board) : (driveData v b).dir = b.dir := by
  simp only [driveData, digitalWrite_dir]

theorem driveData_out (v : Nat) (b : Board) (p : Nat) (h : p < RAM_D0 ∨ RAM_D7 < p) :
    (driveData v b).out p = b.out p := by
  have h2 : p ≠ 2 := by unfold RAM_D0 RAM_D7 at h; omega
  have h3 : p ≠ 3 := by unfold RAM_D0 RAM_D7 at h; omega
  have h4 : p ≠ 4 := by unfold RAM_D0 RAM_D7 at h; omega
  have h5 : p ≠ 5 := by unfold RAM_D0 RAM_D7 at h; omega
  have h6 : p ≠ 6 := by unfold RAM_D0 RAM_D7 at h; omega
  have h7 : p ≠ 7 := by unfold RAM_D0 RAM_D7 at h; omega
  have h8 : p ≠ 8 := by unfold RAM_D0 RAM_D7 at h; omega
  have h9 : p ≠ 9 := by unfold RAM_D0 RAM_D7 at h; omega
  simp only [driveData, digitalWrite_out, Function.update_apply, h2, h3, h4, h5, h6, h7, h8, h9,
    if_false]

theorem driveData_shiftReg (v : Nat) (b : Board) : (driveData v b).shiftReg = b.shiftReg := by
  simp only [driveData]
  repeat rw [digitalWrite_shiftReg_of_ne _ _ (by decide)]

theorem driveData_latched (v : Nat) (b : Board) : (driveData v b).latched = b.latched := by
  simp only [driveData]
  repeat rw [digitalWrite_latched_of_ne _ _ (by decide)]

theorem driveData_quiet (v : Nat) (b : Board) : Quiet (driveData v b) ↔ Quiet b :=
  quiet_congr (driveData_dir v b) (driveData_out v b _ (by decide)) (driveData_out v b _ (by decide))

theorem driveData_mem (v : Nat) (b : Board) (hq : Quiet b) : (driveData v b).mem = b.mem := by
  have q0 : ∀ b1 : Board, b1.dir = b.dir → b1.out WRITE_EN = b.out WRITE_EN →
      b1.out RAM_CS = b.out RAM_CS → Quiet b1 := fun b1 e1 e2 e3 =>
    (quiet_congr e1 e2 e3).mpr hq
  simp only [driveData]
  repeat rw [digitalWrite_mem_of_quiet]
  all_goals
    refine q0 _ (by simp only [digitalWrite_dir]) ?_ ?_ <;>
    simp only [digitalWrite_out, Function.update_apply] <;> rfl

theorem driveData_busValue (v : Nat) (b : Board) (h : BusOut b) :
    busValue (driveData v b) = v % 256 := by
  have d : ∀ p, RAM_D0 ≤ p → p ≤ RAM_D7 → (driveData v b).dir p = true := fun p h1 h2 => by
    rw [driveData_dir]; exact h p h1 h2
  have t : ∀ x : Nat, ((x % 2 != LOW)).toNat = x % 2 := by
    intro x
    rcases Nat.mod_two_eq_zero_or_one x with e | e <;> simp [e, LOW]
  simp only [busValue, forLoop, drivenHigh, RAM_D0]
  rw [d 2 (by decide) (by decide), d 3 (by decide) (by decide), d 4 (by decide) (by decide),
    d 5 (by decide) (by decide), d 6 (by decide) (by decide), d 7 (by decide) (by decide),
    d 8 (by decide) (by decide), d 9 (by decide) (by decide)]
  simp only [driveData, digitalWrite_out, Function.update_apply, Bool.true_and]
  norm_num [t]
  omega

theorem busValue_congr {b b' : Board} (hd : b'.dir = b.dir)
    (ho : ∀ p, RAM_D0 ≤ p → p ≤ RAM_D7 → b'.out p = b.out p) : busValue b' = busValue b := by
  simp only [busValue, forLoop, drivenHigh, RAM_D0, hd]
  rw [ho 2 (by decide) (by decide), ho 3 (by decide) (by decide), ho 4 (by decide) (by decide),
    ho 5 (by decide) (by decide), ho 6 (by decide) (by decide), ho 7 (by decide) (by decide),
    ho 8 (by decide) (by decide), ho 9 (by decide) (by decide)]

/-- Write-enable going low on a selected chip stores the data lines in the
addressed cell. -/
theorem digitalWrite_we_low (b : Board) (h : Selected b) :
    (digitalWrite WRITE_EN LOW b).mem
      = Function.update b.mem b.latched (Fin.ofNat (busValue b)) := by
  obtain ⟨h1, -, h3, h4⟩ := h
  have hb : busValue (setPort WRITE_EN (LOW != LOW) b) = busValue b :=
    busValue_congr rfl (fun p hp hq => Function.update_noteq
      (by unfold RAM_D7 at hq; unfold WRITE_EN; omega) _ _)
  have hl : (settle b (setPort WRITE_EN (LOW != LOW) b)).latched = b.latched :=
    digitalWrite_latched_of_ne LOW b (by decide)
  have hc : (Function.update b.out WRITE_EN (LOW != LOW)) RAM_CS = false := by
    rw [Function.update_noteq (by decide)]; exact h4
  have hm : (digitalWrite WRITE_EN LOW b).mem =
      if drivenLow (setPort WRITE_EN (LOW != LOW) b) WRITE_EN
        && drivenLow (setPort WRITE_EN (LOW != LOW) b) RAM_CS
      then Function.update b.mem (settle b (setPort WRITE_EN (LOW != LOW) b)).latched
          (Fin.ofNat (busValue (setPort WRITE_EN (LOW != LOW) b)))
      else b.mem := rfl
  rw [hm, hb, hl]
  simp only [drivenLow, setPort, h1, h3, hc, Function.update_same]
  rfl

theorem WriteRAM_dir (a d : Nat) (b : Board) : (WriteRAM a d b).dir = b.dir := by
  rw [WriteRAM_eq]
  simp only [digitalWrite_dir, driveData_dir, SetAddress_dir]

theorem WriteRAM_out (a d : Nat) (b : Board) (p : Nat) (h : p = RAM_CS ∨ p = SHIFT_CLK) :
    (WriteRAM a d b).out p = (if p = SHIFT_CLK then (SetAddress a false b).out p else b.out p) := by
  rw [WriteRAM_eq]
  rcases h with h | h <;> subst h
  · simp only [digitalWrite_out]
    rw [Function.update_noteq (by decide), Function.update_noteq (by decide),
      driveData_out _ _ _ (by decide),
      SetAddress_out _ _ _ _ (by decide) (by decide) (by decide) (by decide)]
    rfl
  · simp only [digitalWrite_out]
    rw [Function.update_noteq (by decide), Function.update_noteq (by decide),
      driveData_out _ _ _ (by decide)]
    rfl

theorem WriteRAM_wired (a d : Nat) {b : Board} (h : Wired b) : Wired (WriteRAM a d b) := by
  have w := SetAddress_wired a false h
  unfold Wired
  rw [WriteRAM_dir, WriteRAM_out _ _ _ _ (Or.inr rfl), if_pos rfl]
  exact ⟨h.1, h.2.1, h.2.2.1, h.2.2.2.1, w.2.2.2.2⟩

theorem WriteRAM_selected (a d : Nat) {b : Board} (h : Selected b) :
    Selected (WriteRAM a d b) := by
  unfold Selected
  rw [WriteRAM_dir, WriteRAM_out _ _ _ _ (Or.inl rfl), if_neg (by decide)]
  refine ⟨h.1, ?_, h.2.2.1, h.2.2.2⟩
  rw [WriteRAM_eq, digitalWrite_out, Function.update_same]
  rfl

theorem quiet_of_selected {b : Board} (h : Selected b) : Quiet b := by
  unfold Quiet drivenLow
  rw [h.2.1]
  simp

/-- On a selected chip with the data pins as outputs, `WriteRAM(a, d)`
stores `d` in cell `a` and leaves every other cell as it was. -/
theorem WriteRAM_mem (a d : Nat) {b : Board} (hw : Wired b) (hs : Selected b) (ho : BusOut b) :
    (WriteRAM a d b).mem = Function.update b.mem (a % 65536) (Fin.ofNat (d % 256)) := by
  have hq : Quiet b := (quiet_of_selected hs)
  have s1 : Selected (driveData (d % 256) (SetAddress a false b)) := by
    unfold Selected
    rw [driveData_dir, SetAddress_dir, driveData_out _ _ _ (by decide),
      driveData_out _ _ _ (by decide),
      SetAddress_out _ _ _ _ (by decide) (by decide) (by decide) (by decide),
      SetAddress_out _ _ _ _ (by decide) (by decide) (by decide) (by decide)]
    exact hs
  have bo : BusOut (SetAddress a false b) := fun p h1 h2 => by
    rw [SetAddress_dir]; exact ho p h1 h2
  have q2 : Quiet (digitalWrite WRITE_EN HIGH (digitalWrite WRITE_EN LOW
      (driveData (d % 256) (SetAddress a false b)))) := by
    unfold Quiet drivenLow
    rw [digitalWrite_out, Function.update_same]
    simp [HIGH, LOW]
  rw [WriteRAM_eq, digitalWrite_mem_of_quiet _ _ _ q2, digitalWrite_we_low _ s1,
    driveData_busValue _ _ bo, driveData_latched, SetAddress_latched _ _ hw,
    driveData_mem _ _ ((SetAddress_quiet a false b).mpr hq), SetAddress_mem _ _ hw hq]
  rw [Nat.mod_mod]

theorem digitalRead_chip (c : Board) (p : Nat) (h1 : RAM_D0 ≤ p) (h2 : p ≤ RAM_D7)
    (hd : c.dir p = false) (hc : chipDrives c = true) :
    digitalRead p c = (c.mem c.latched).val / 2 ^ (p - RAM_D0) % 2 := by
  unfold digitalRead
  rw [hd, if_neg (by simp), if_pos ⟨h1, h2, hc⟩]

theorem ReadRAM_board (a : Nat) (b : Board) : (ReadRAM a b).2 = SetAddress a true b := by
  simp only [ReadRAM]

/-- On a selected chip with the data pins as inputs, `ReadRAM(a)` returns
the content of cell `a`. -/
theorem ReadRAM_val (a : Nat) {b : Board} (hw : Wired b) (hs : Selected b) (hi : BusIn b) :
    (ReadRAM a b).1 = (b.mem (a % 65536)).val := by
  have hd : ∀ p, RAM_D0 ≤ p → p ≤ RAM_D7 → (SetAddress a true b).dir p = false :=
    fun p h1 h2 => by rw [SetAddress_dir]; exact hi p h1 h2
  have hc : chipDrives (SetAddress a true b) = true := by
    unfold chipDrives drivenLow
    rw [SetAddress_dir, SetAddress_out_oe,
      SetAddress_out _ _ _ _ (by decide) (by decide) (by decide) (by decide),
      SetAddress_out _ _ _ _ (by decide) (by decide) (by decide) (by decide),
      hs.1, hs.2.1, hs.2.2.1, hs.2.2.2, hw.2.2.2.1]
    rfl
  have hr : ∀ p, RAM_D0 ≤ p → p ≤ RAM_D7 → digitalRead p (SetAddress a true b)
      = (b.mem (a % 65536)).val / 2 ^ (p - RAM_D0) % 2 := fun p h1 h2 => by
    rw [digitalRead_chip _ _ h1 h2 (hd p h1 h2) hc, SetAddress_latched _ _ hw,
      SetAddress_mem _ _ hw (quiet_of_selected hs)]
  have hlt := (b.mem (a % 65536)).isLt
  simp only [ReadRAM, forLoop, RAM_D7, RAM_D0]
  have r9 := hr 9 (by decide) (by decide)
  have r8 := hr 8 (by decide) (by decide)
  have r7 := hr 7 (by decide) (by decide)
  have r6 := hr 6 (by decide) (by decide)
  have r5 := hr 5 (by decide) (by decide)
  have r4 := hr 4 (by decide) (by decide)
  have r3 := hr 3 (by decide) (by decide)
  have r2 := hr 2 (by decide) (by decide)
  simp only [RAM_D0] at r2 r3 r4 r5 r6 r7 r8 r9
  norm_num at r2 r3 r4 r5 r6 r7 r8 r9 ⊢
  rw [r2, r3, r4, r5, r6, r7, r8, r9]
  omega

theorem ReadRAM_wired (a : Nat) {b : Board} (h : Wired b) : Wired (ReadRAM a b).2 := by
  rw [ReadRAM_board]; exact SetAddress_wired a true h

theorem ReadRAM_selected (a : Nat) {b : Board} (h : Selected b) : Selected (ReadRAM a b).2 := by
  rw [ReadRAM_board]
  unfold Selected
  rw [SetAddress_dir, SetAddress_out _ _ _ _ (by decide) (by decide) (by decide) (by decide),
    SetAddress_out _ _ _ _ (by decide) (by decide) (by decide) (by decide)]
  exact h

theorem ReadRAM_busIn (a : Nat) {b : Board} (h : BusIn b) : BusIn (ReadRAM a b).2 := by
  rw [ReadRAM_board]
  intro p h1 h2
  rw [SetAddress_dir]; exact h p h1 h2

theorem ReadRAM_mem (a : Nat) {b : Board} (hw : Wired b) (hs : Selected b) :
    (ReadRAM a b).2.mem = b.mem := by
  rw [ReadRAM_board, SetAddress_mem _ _ hw (quiet_of_selected hs)]

theorem WriteRAM_busOut (a d : Nat) {b : Board} (h : BusOut b) : BusOut (WriteRAM a d b) := by
  intro p h1 h2
  rw [WriteRAM_dir]; exact h p h1 h2

/-! ## `pinMode`, `SetDataBus`, `SelectRAMChip` -/

theorem setMode_dir_of_ne (p m : Nat) (b : Board) (q : Nat) (h : q ≠ p) :
    (setMode p m b).dir q = b.dir q := by
  unfold setMode
  split_ifs <;> simp [Function.update_apply, h]

theorem setMode_out_of_ne (p m : Nat) (b : Board) (q : Nat) (h : q ≠ p) :
    (setMode p m b).out q = b.out q := by
  unfold setMode
  split_ifs <;> simp [Function.update_apply, h]

theorem setMode_shiftReg (p m : Nat) (b : Board) : (setMode p m b).shiftReg = b.shiftReg := by
  unfold setMode
  split_ifs <;> rfl

theorem setMode_latched (p m : Nat) (b : Board) : (setMode p m b).latched = b.latched := by
  unfold setMode
  split_ifs <;> rfl

theorem setMode_mem (p m : Nat) (b : Board) : (setMode p m b).mem = b.mem := by
  unfold setMode
  split_ifs <;> rfl

theorem pinMode_dir (p m : Nat) (b : Board) : (pinMode p m b).dir = (setMode p m b).dir := rfl

theorem pinMode_out (p m : Nat) (b : Board) : (pinMode p m b).out = (setMode p m b).out := rfl

theorem pinMode_dir_of_ne (p m : Nat) (b : Board) (q : Nat) (h : q ≠ p) :
    (pinMode p m b).dir q = b.dir q := by
  rw [pinMode_dir, setMode_dir_of_ne _ _ _ _ h]

theorem pinMode_out_of_ne (p m : Nat) (b : Board) (q : Nat) (h : q ≠ p) :
    (pinMode p m b).out q = b.out q := by
  rw [pinMode_out, setMode_out_of_ne _ _ _ _ h]

theorem pinMode_input_dir (p : Nat) (b : Board) : (pinMode p INPUT b).dir p = false := by
  simp [pinMode_dir, setMode]

theorem pinMode_input_out (p : Nat) (b : Board) : (pinMode p INPUT b).out p = false := by
  simp [pinMode_out, setMode]

theorem pinMode_output_dir (p : Nat) (b : Board) : (pinMode p OUTPUT b).dir p = true := by
  simp [pinMode_dir, setMode, OUTPUT, INPUT, INPUT_PULLUP]

theorem pinMode_output_out (p : Nat) (b : Board) : (pinMode p OUTPUT b).out = b.out := by
  simp [pinMode_out, setMode, OUTPUT, INPUT, INPUT_PULLUP]

theorem pinMode_shiftReg_of_ne {p : Nat} (m : Nat) (b : Board) (h : p ≠ SHIFT_CLK) :
    (pinMode p m b).shiftReg = b.shiftReg := by
  have e1 := setMode_dir_of_ne p m b SHIFT_CLK (Ne.symm h)
  have e2 := setMode_out_of_ne p m b SHIFT_CLK (Ne.symm h)
  simp only [pinMode, settle, drivenHigh, e1, e2, setMode_shiftReg]
  cases b.dir SHIFT_CLK <;> cases b.out SHIFT_CLK <;> rfl

theorem pinMode_latched_of_ne {p : Nat} (m : Nat) (b : Board) (h : p ≠ SHIFT_LATCH) :
    (pinMode p m b).latched = b.latched := by
  have e1 := setMode_dir_of_ne p m b SHIFT_LATCH (Ne.symm h)
  have e2 := setMode_out_of_ne p m b SHIFT_LATCH (Ne.symm h)
  simp only [pinMode, settle, drivenHigh, e1, e2, setMode_latched]
  cases b.dir SHIFT_LATCH <;> cases b.out SHIFT_LATCH <;> rfl

theorem pinMode_mem_of_quiet (p m : Nat) (b : Board)
    (h : Quiet (pinMode p m b)) : (pinMode p m b).mem = b.mem := by
  unfold Quiet drivenLow at h
  simp only [pinMode_dir, pinMode_out] at h
  simp only [pinMode, settle, drivenLow, h, setMode_mem]
  rfl

theorem SetDataBus_eq (io : Nat) (b : Board) : SetDataBus io b = modeData io b := by
  simp only [SetDataBus, forLoop, modeData, RAM_D0, RAM_D7]

theorem SetDataBus_dir_of_ne (io : Nat) (b : Board) (q : Nat) (h : q < RAM_D0 ∨ RAM_D7 < q) :
    (SetDataBus io b).dir q = b.dir q := by
  unfold RAM_D0 RAM_D7 at h
  rw [SetDataBus_eq]
  simp only [modeData]
  repeat rw [pinMode_dir_of_ne _ _ _ _ (by omega)]

theorem SetDataBus_out_of_ne (io : Nat) (b : Board) (q : Nat) (h : q < RAM_D0 ∨ RAM_D7 < q) :
    (SetDataBus io b).out q = b.out q := by
  unfold RAM_D0 RAM_D7 at h
  rw [SetDataBus_eq]
  simp only [modeData]
  repeat rw [pinMode_out_of_ne _ _ _ _ (by omega)]

theorem SetDataBus_shiftReg (io : Nat) (b : Board) : (SetDataBus io b).shiftReg = b.shiftReg := by
  rw [SetDataBus_eq]
  simp only [modeData]
  repeat rw [pinMode_shiftReg_of_ne _ _ (by decide)]

theorem SetDataBus_latched (io : Nat) (b : Board) : (SetDataBus io b).latched = b.latched := by
  rw [SetDataBus_eq]
  simp only [modeData]
  repeat rw [pinMode_latched_of_ne _ _ (by decide)]

theorem SetDataBus_quiet (io : Nat) (b : Board) : Quiet (SetDataBus io b) ↔ Quiet b := by
  unfold Quiet drivenLow
  rw [SetDataBus_dir_of_ne _ _ _ (by decide), SetDataBus_dir_of_ne _ _ _ (by decide),
    SetDataBus_out_of_ne _ _ _ (by decide), SetDataBus_out_of_ne _ _ _ (by decide)]

theorem SetDataBus_mem (io : Nat) (b : Board) (hq : Quiet b) : (SetDataBus io b).mem = b.mem := by
  have q0 : ∀ b1 : Board, b1.dir WRITE_EN = b.dir WRITE_EN → b1.dir RAM_CS = b.dir RAM_CS →
      b1.out WRITE_EN = b.out WRITE_EN → b1.out RAM_CS = b.out RAM_CS → Quiet b1 := by
    intro b1 e1 e2 e3 e4
    unfold Quiet drivenLow at hq ⊢
    rw [e1, e2, e3, e4]; exact hq
  rw [SetDataBus_eq]
  simp only [modeData]
  repeat rw [pinMode_mem_of_quiet]
  all_goals
    refine q0 _ ?_ ?_ ?_ ?_
    · repeat rw [pinMode_dir_of_ne _ _ _ _ (by decide)]
    · repeat rw [pinMode_dir_of_ne _ _ _ _ (by decide)]
    · repeat rw [pinMode_out_of_ne _ _ _ _ (by decide)]
    · repeat rw [pinMode_out_of_ne _ _ _ _ (by decide)]

theorem SetDataBus_wired (io : Nat) {b : Board} (h : Wired b) : Wired (SetDataBus io b) := by
  unfold Wired
  rw [SetDataBus_dir_of_ne _ _ _ (by decide), SetDataBus_dir_of_ne _ _ _ (by decide),
    SetDataBus_dir_of_ne _ _ _ (by decide), SetDataBus_dir_of_ne _ _ _ (by decide),
    SetDataBus_out_of_ne _ _ _ (by decide)]
  exact h

theorem SetDataBus_selected (io : Nat) {b : Board} (h : Selected b) :
    Selected (SetDataBus io b) := by
  unfold Selected
  rw [SetDataBus_dir_of_ne _ _ _ (by decide), SetDataBus_dir_of_ne _ _ _ (by decide),
    SetDataBus_out_of_ne _ _ _ (by decide), SetDataBus_out_of_ne _ _ _ (by decide)]
  exact h

theorem SetDataBus_input (b : Board) : BusIn (SetDataBus INPUT b) := by
  intro p h1 h2
  unfold RAM_D0 at h1
  unfold RAM_D7 at h2
  rw [SetDataBus_eq]
  simp only [modeData]
  have hp : p = 2 ∨ p = 3 ∨ p = 4 ∨ p = 5 ∨ p = 6 ∨ p = 7 ∨ p = 8 ∨ p = 9 := by omega
  rcases hp with e | e | e | e | e | e | e | e <;> subst e <;>
    simp only [pinMode_dir, setMode, Function.update_apply] <;> rfl

theorem SetDataBus_output (b : Board) : BusOut (SetDataBus OUTPUT b) := by
  intro p h1 h2
  unfold RAM_D0 at h1
  unfold RAM_D7 at h2
  rw [SetDataBus_eq]
  simp only [modeData]
  have hp : p = 2 ∨ p = 3 ∨ p = 4 ∨ p = 5 ∨ p = 6 ∨ p = 7 ∨ p = 8 ∨ p = 9 := by omega
  rcases hp with e | e | e | e | e | e | e | e <;> subst e <;>
    simp only [pinMode_dir, setMode, Function.update_apply] <;> rfl

theorem SelectRAMChip_high_eq (b : Board) : SelectRAMChip HIGH b =
    digitalWrite RAM_CS LOW (pinMode RAM_CS OUTPUT (digitalWrite WRITE_EN HIGH
      (pinMode WRITE_EN HIGH b))) := by
  simp only [SelectRAMChip, HIGH, if_true]

theorem SelectRAMChip_low_eq (b : Board) : SelectRAMChip LOW b =
    digitalWrite RAM_CS HIGH (pinMode RAM_CS OUTPUT (digitalWrite WRITE_EN LOW
      (pinMode WRITE_EN LOW b))) := by
  simp only [SelectRAMChip, LOW]
  rfl

theorem SelectRAMChip_cases (onOff : Nat) (b : Board) :
    ∃ v, SelectRAMChip onOff b =
      digitalWrite RAM_CS v (pinMode RAM_CS OUTPUT (digitalWrite WRITE_EN onOff
        (pinMode WRITE_EN onOff b))) := by
  unfold SelectRAMChip
  by_cases h : onOff = 1
  · exact ⟨LOW, by simp only [h, if_true]⟩
  · exact ⟨HIGH, by simp only [h, if_false]⟩

theorem SelectRAMChip_dir_of_ne (onOff : Nat) (b : Board) (q : Nat) (h1 : q ≠ WRITE_EN)
    (h2 : q ≠ RAM_CS) : (SelectRAMChip onOff b).dir q = b.dir q := by
  obtain ⟨v, e⟩ := SelectRAMChip_cases onOff b
  rw [e, digitalWrite_dir, pinMode_dir_of_ne _ _ _ _ h2, digitalWrite_dir,
    pinMode_dir_of_ne _ _ _ _ h1]

theorem SelectRAMChip_out_of_ne (onOff : Nat) (b : Board) (q : Nat) (h1 : q ≠ WRITE_EN)
    (h2 : q ≠ RAM_CS) : (SelectRAMChip onOff b).out q = b.out q := by
  obtain ⟨v, e⟩ := SelectRAMChip_cases onOff b
  rw [e, digitalWrite_out, Function.update_noteq h2, pinMode_out_of_ne _ _ _ _ h2,
    digitalWrite_out, Function.update_noteq h1, pinMode_out_of_ne _ _ _ _ h1]

theorem SelectRAMChip_shiftReg (onOff : Nat) (b : Board) :
    (SelectRAMChip onOff b).shiftReg = b.shiftReg := by
  obtain ⟨v, e⟩ := SelectRAMChip_cases onOff b
  rw [e, digitalWrite_shiftReg_of_ne _ _ (by decide), pinMode_shiftReg_of_ne _ _ (by decide),
    digitalWrite_shiftReg_of_ne _ _ (by decide), pinMode_shiftReg_of_ne _ _ (by decide)]

theorem SelectRAMChip_latched (onOff : Nat) (b : Board) :
    (SelectRAMChip onOff b).latched = b.latched := by
  obtain ⟨v, e⟩ := SelectRAMChip_cases onOff b
  rw [e, digitalWrite_latched_of_ne _ _ (by decide), pinMode_latched_of_ne _ _ (by decide),
    digitalWrite_latched_of_ne _ _ (by decide), pinMode_latched_of_ne _ _ (by decide)]

theorem SelectRAMChip_wired (onOff : Nat) {b : Board} (h : Wired b) :
    Wired (SelectRAMChip onOff b) := by
  unfold Wired
  rw [SelectRAMChip_dir_of_ne _ _ _ (by decide) (by decide),
    SelectRAMChip_dir_of_ne _ _ _ (by decide) (by decide),
    SelectRAMChip_dir_of_ne _ _ _ (by decide) (by decide),
    SelectRAMChip_dir_of_ne _ _ _ (by decide) (by decide),
    SelectRAMChip_out_of_ne _ _ _ (by decide) (by decide)]
  exact h

theorem SelectRAMChip_busIn (onOff : Nat) {b : Board} (h : BusIn b) :
    BusIn (SelectRAMChip onOff b) := by
  intro p h1 h2
  unfold RAM_D0 at h1
  unfold RAM_D7 at h2
  rw [SelectRAMChip_dir_of_ne _ _ _ (by unfold WRITE_EN; omega) (by unfold RAM_CS; omega)]
  exact h p h1 h2

theorem SelectRAMChip_busOut (onOff : Nat) {b : Board} (h : BusOut b) :
    BusOut (SelectRAMChip onOff b) := by
  intro p h1 h2
  unfold RAM_D0 at h1
  unfold RAM_D7 at h2
  rw [SelectRAMChip_dir_of_ne _ _ _ (by unfold WRITE_EN; omega) (by unfold RAM_CS; omega)]
  exact h p h1 h2

/-- After `SelectRAMChip(HIGH)` write-enable is driven high and chip-select
is driven low. -/
theorem SelectRAMChip_high_selected (b : Board) : Selected (SelectRAMChip HIGH b) := by
  rw [SelectRAMChip_high_eq]
  unfold Selected
  refine ⟨?_, ?_, ?_, ?_⟩
  · rw [digitalWrite_dir, pinMode_dir_of_ne _ _ _ _ (by decide), digitalWrite_dir]
    exact pinMode_output_dir _ _
  · rw [digitalWrite_out, Function.update_noteq (by decide), pinMode_output_out,
      digitalWrite_out, Function.update_same]
    rfl
  · rw [digitalWrite_dir]
    exact pinMode_output_dir _ _
  · rw [digitalWrite_out, Function.update_same]
    rfl

/-- After `SelectRAMChip(LOW)` the write-enable pin is an input and
chip-select is driven high. -/
theorem SelectRAMChip_low_idle (b : Board) : Idle (SelectRAMChip LOW b) := by
  rw [SelectRAMChip_low_eq]
  unfold Idle drivenLow
  rw [digitalWrite_out, Function.update_same]
  simp [HIGH, LOW]

theorem SelectRAMChip_low_mem (b : Board) : (SelectRAMChip LOW b).mem = b.mem := by
  have hd : (pinMode WRITE_EN LOW b).dir WRITE_EN = false := pinMode_input_dir _ _
  rw [SelectRAMChip_low_eq]
  rw [digitalWrite_mem_of_quiet, pinMode_mem_of_quiet, digitalWrite_mem_of_quiet,
    pinMode_mem_of_quiet]
  all_goals
    unfold Quiet drivenLow
    simp only [digitalWrite_dir, pinMode_dir_of_ne _ _ _ WRITE_EN (show WRITE_EN ≠ RAM_CS by decide),
      hd, Bool.false_and]

theorem SelectRAMChip_high_mem (b : Board) (h : Idle b) : (SelectRAMChip HIGH b).mem = b.mem := by
  rw [SelectRAMChip_high_eq]
  have h1 : Quiet (pinMode WRITE_EN HIGH b) := by
    unfold Quiet drivenLow
    unfold Idle drivenLow at h
    rw [pinMode_dir_of_ne _ _ _ RAM_CS (by decide), pinMode_out_of_ne _ _ _ RAM_CS (by decide), h]
    simp
  have h2 : (digitalWrite WRITE_EN HIGH (pinMode WRITE_EN HIGH b)).out WRITE_EN = true := by
    rw [digitalWrite_out, Function.update_same]; rfl
  have h3 : (pinMode RAM_CS OUTPUT (digitalWrite WRITE_EN HIGH
      (pinMode WRITE_EN HIGH b))).out WRITE_EN = true := by
    rw [pinMode_output_out]; exact h2
  have h4 : (digitalWrite RAM_CS LOW (pinMode RAM_CS OUTPUT (digitalWrite WRITE_EN HIGH
      (pinMode WRITE_EN HIGH b)))).out WRITE_EN = true := by
    rw [digitalWrite_out, Function.update_noteq (by decide)]; exact h3
  rw [digitalWrite_mem_of_quiet, pinMode_mem_of_quiet, digitalWrite_mem_of_quiet,
    pinMode_mem_of_quiet _ _ _ h1]
  · unfold Quiet drivenLow; rw [h2]; simp
  · unfold Quiet drivenLow; rw [h3]; simp
  · unfold Quiet drivenLow; rw [h4]; simp

theorem setupPins_wired (mem : Nat → Byte) : Wired (setupPins (resetBoard mem)) :=
  ⟨rfl, rfl, rfl, rfl, rfl⟩

theorem setupPins_idle (mem : Nat → Byte) : Idle (setupPins (resetBoard mem)) := by
  unfold Idle drivenLow
  have : (setupPins (resetBoard mem)).dir RAM_CS = false := rfl
  rw [this]; rfl

theorem setupPins_mem (mem : Nat → Byte) : (setupPins (resetBoard mem)).mem = mem := by
  simp only [setupPins]
  rw [pinMode_mem_of_quiet, pinMode_mem_of_quiet, pinMode_mem_of_quiet, pinMode_mem_of_quiet,
    pinMode_mem_of_quiet]
  · rfl
  all_goals
    unfold Quiet drivenLow
    have e : ∀ b : Board, b.dir RAM_CS = false →
        (b.dir WRITE_EN && !b.out WRITE_EN && (b.dir RAM_CS && !b.out RAM_CS)) = false := by
      intro b hb; rw [hb]; simp
    exact e _ rfl

/-! ## `FillWithByte` -/

theorem byte_ofNat_val (x : Byte) : (Fin.ofNat (x.val % 256) : Byte) = x :=
  Fin.ext (by simp [Fin.ofNat])

/-- The write loop of `FillWithByte` after `n` iterations. -/
theorem fill_loop (v : Nat) (b0 : Board) (hw : Wired b0) (hs : Selected b0) (ho : BusOut b0)
    (n : Nat) (hn : n ≤ 65536) :
    Wired (forLoop n (fun i board => WriteRAM i v board) b0) ∧
    Selected (forLoop n (fun i board => WriteRAM i v board) b0) ∧
    BusOut (forLoop n (fun i board => WriteRAM i v board) b0) ∧
    ∀ a, (forLoop n (fun i board => WriteRAM i v board) b0).mem a
      = if a < n then Fin.ofNat (v % 256) else b0.mem a := by
  induction n with
  | zero => exact ⟨hw, hs, ho, fun a => by simp [forLoop]⟩
  | succ k ih =>
    obtain ⟨w, s, o, hm⟩ := ih (by omega)
    refine ⟨WriteRAM_wired _ _ w, WriteRAM_selected _ _ s, WriteRAM_busOut _ _ o, ?_⟩
    intro a
    show (WriteRAM k v (forLoop k (fun i board => WriteRAM i v board) b0)).mem a = _
    rw [WriteRAM_mem k v w s o, Nat.mod_eq_of_lt (by omega : k < 65536), Function.update_apply, hm a]
    by_cases h1 : a = k
    · subst h1; simp
    · by_cases h2 : a < k
      · simp [h1, h2, Nat.lt_succ_of_lt h2]
      · have h3 : ¬ a < k + 1 := by omega
        simp [h1, h2, h3]

theorem FillWithByte_board (B : Nat) (m : Machine) :
    (FillWithByte B m).board = SelectRAMChip LOW (forLoop RAM_CHIP_CAPACITY
      (fun i board => WriteRAM i (B % 256) board)
      (SetDataBus OUTPUT (SelectRAMChip HIGH m.board))) := by
  simp only [FillWithByte, Machine.println, Machine.print, Machine.printlnNum]

theorem FillWithByte_mem (B : Nat) (m : Machine) (hw : Wired m.board) (a : Nat) :
    (FillWithByte B m).board.mem a
      = if a < 65536 then Fin.ofNat (B % 256) else (SelectRAMChip HIGH m.board).mem a := by
  have s0 := SelectRAMChip_high_selected m.board
  obtain ⟨-, -, -, hm⟩ := fill_loop (B % 256) (SetDataBus OUTPUT (SelectRAMChip HIGH m.board))
    (SetDataBus_wired _ (SelectRAMChip_wired _ hw)) (SetDataBus_selected _ s0)
    (SetDataBus_output _) 65536 (le_refl _)
  rw [FillWithByte_board, SelectRAMChip_low_mem]
  simp only [RAM_CHIP_CAPACITY]
  rw [hm a, SetDataBus_mem _ _ (quiet_of_selected s0), Nat.mod_mod]

theorem FillWithByte_wired (B : Nat) (m : Machine) (hw : Wired m.board) :
    Wired (FillWithByte B m).board := by
  have s0 := SelectRAMChip_high_selected m.board
  obtain ⟨w, -, -, -⟩ := fill_loop (B % 256) (SetDataBus OUTPUT (SelectRAMChip HIGH m.board))
    (SetDataBus_wired _ (SelectRAMChip_wired _ hw)) (SetDataBus_selected _ s0)
    (SetDataBus_output _) 65536 (le_refl _)
  rw [FillWithByte_board]
  exact SelectRAMChip_wired _ w

theorem FillWithByte_idle (B : Nat) (m : Machine) : Idle (FillWithByte B m).board := by
  rw [FillWithByte_board]
  exact SelectRAMChip_low_idle _

/-! ## `WriteFileToRAM` and `CompareRAMContents` -/

theorem readBytes_pos (content : List Byte) (pos : Nat) (buf : List Nat)
    (h : pos + PART_SIZE ≤ content.length) :
    (readBytes content pos buf PART_SIZE).2 = pos + PART_SIZE := by
  simp only [readBytes, List.length_map, List.length_take, List.length_drop]
  omega

theorem readBytes_getD (content : List Byte) (pos : Nat) (buf : List Nat)
    (h : pos + PART_SIZE ≤ content.length) (j : Nat) (hj : j < PART_SIZE) :
    (readBytes content pos buf PART_SIZE).1.getD j 0 = (content.getD (pos + j) 0).val := by
  have hl : (((content.drop pos).take PART_SIZE).map Fin.val).length = PART_SIZE := by
    simp only [List.length_map, List.length_take, List.length_drop]
    omega
  have h1 : pos + j < content.length := by omega
  simp only [readBytes]
  rw [List.getD_eq_getElem?_getD, List.getElem?_append_left (by rw [hl]; exact hj),
    List.getElem?_map, List.getElem?_take_of_lt hj, List.getElem?_drop,
    List.getD_eq_getElem?_getD, List.getElem?_eq_getElem h1]
  rfl

theorem writeByteStep_board (j : Nat) (st : Xfer) : (writeByteStep j st).m.board
    = WriteRAM st.addr (st.buf.getD j 0) st.m.board := rfl

theorem writeByteStep_addr (j : Nat) (st : Xfer) :
    (writeByteStep j st).addr = (st.addr + 1) % 65536 := rfl

theorem writeByteStep_sd (j : Nat) (st : Xfer) : (writeByteStep j st).m.sd = st.m.sd := by
  simp only [writeByteStep]

theorem writeByteStep_serial (j : Nat) (st : Xfer) :
    (writeByteStep j st).m.serial = st.m.serial := by
  simp only [writeByteStep]

theorem writeByteStep_buf (j : Nat) (st : Xfer) : (writeByteStep j st).buf = st.buf := rfl

theorem writeByteStep_pos (j : Nat) (st : Xfer) : (writeByteStep j st).pos = st.pos := rfl

theorem writeByteStep_inv (content : List Byte) (m0 : Machine) (n j : Nat) (st : Xfer)
    (hn : n < 131072) (hb : st.buf.getD j 0 = (content.getD n 0).val)
    (h : WriteInv content m0 n st) : WriteInv content m0 (n + 1) (writeByteStep j st) := by
  obtain ⟨ha, w, s, o, hsd, hser, hm⟩ := h
  unfold WriteInv
  rw [writeByteStep_board, writeByteStep_addr, writeByteStep_sd, writeByteStep_serial]
  refine ⟨?_, WriteRAM_wired _ _ w, WriteRAM_selected _ _ s, WriteRAM_busOut _ _ o, hsd, hser, ?_⟩
  · rw [ha]; omega
  · intro a
    rw [WriteRAM_mem _ _ w s o, ha, Nat.mod_mod, hb, byte_ofNat_val, Function.update_apply, hm a]
    split_ifs <;> first | rfl | (exfalso; omega) | (congr 1; omega)

theorem forLoop_succ {σ : Type} (n : Nat) (body : Nat → σ → σ) (s : σ) :
    forLoop (n + 1) body s = body n (forLoop n body s) := rfl

theorem forLoop_zero {σ : Type} (body : Nat → σ → σ) (s : σ) : forLoop 0 body s = s := rfl

/-- The inner loop of `WriteFileToRAM` over the first `j` bytes of a chunk
that starts at address `n`. -/
theorem write_bytes (content : List Byte) (m0 : Machine) (n : Nat) (st : Xfer)
    (hb : ∀ j, j < PART_SIZE → st.buf.getD j 0 = (content.getD (n + j) 0).val)
    (h : WriteInv content m0 n st) (j : Nat) (hj : j ≤ PART_SIZE) (hn : n + j ≤ 131072) :
    WriteInv content m0 (n + j) (forLoop j writeByteStep st) ∧
    (forLoop j writeByteStep st).buf = st.buf ∧ (forLoop j writeByteStep st).pos = st.pos := by
  induction j with
  | zero => exact ⟨h, rfl, rfl⟩
  | succ k ih =>
    obtain ⟨i1, i2, i3⟩ := ih (by omega) (by omega)
    rw [forLoop_succ, writeByteStep_buf, writeByteStep_pos]
    exact ⟨writeByteStep_inv content m0 (n + k) k _ (by omega)
        (by rw [i2]; exact hb k (by omega)) i1, i2, i3⟩

theorem writeChunkStep_eq (content : List Byte) (i : Nat) (st : Xfer) :
    writeChunkStep content i st = forLoop PART_SIZE writeByteStep
      { buf := (readBytes content st.pos st.buf PART_SIZE).1,
        pos := (readBytes content st.pos st.buf PART_SIZE).2,
        addr := st.addr, fail := st.fail, m := st.m } := rfl

/-- The outer loop of `WriteFileToRAM` after `i` chunks. -/
theorem write_chunks (content : List Byte) (m0 : Machine) (st0 : Xfer)
    (hp : st0.pos = 0) (h : WriteInv content m0 0 st0) (hl : content.length ≤ 131072)
    (i : Nat) (hi : i * PART_SIZE ≤ content.length) :
    WriteInv content m0 (i * PART_SIZE) (forLoop i (writeChunkStep content) st0) ∧
    (forLoop i (writeChunkStep content) st0).pos = i * PART_SIZE := by
  induction i with
  | zero => exact ⟨by simpa using h, by simpa using hp⟩
  | succ k ih =>
    have e : (k + 1) * PART_SIZE = k * PART_SIZE + PART_SIZE := by ring
    have hk : k * PART_SIZE + PART_SIZE ≤ content.length := by omega
    obtain ⟨i1, i2⟩ := ih (by omega)
    rw [forLoop_succ, writeChunkStep_eq]
    generalize forLoop k (writeChunkStep content) st0 = S at i1 i2
    have key := write_bytes content m0 (k * PART_SIZE)
      { buf := (readBytes content S.pos S.buf PART_SIZE).1,
        pos := (readBytes content S.pos S.buf PART_SIZE).2,
        addr := S.addr, fail := S.fail, m := S.m }
      (fun j hj => by
        show (readBytes content S.pos S.buf PART_SIZE).1.getD j 0 = _
        rw [i2]
        exact readBytes_getD content _ _ hk j hj)
      i1 PART_SIZE (le_refl _) (by omega)
    rw [e]
    refine ⟨key.1, ?_⟩
    rw [key.2.2]
    show (readBytes content S.pos S.buf PART_SIZE).2 = _
    rw [i2, readBytes_pos content _ _ hk]

@[simp] theorem print_board (t : String) (m : Machine) : (m.print t).board = m.board := by
  cases m; rfl
@[simp] theorem print_sd (t : String) (m : Machine) : (m.print t).sd = m.sd := by
  cases m; rfl
@[simp] theorem println_board (t : String) (m : Machine) : (m.println t).board = m.board := by
  cases m; rfl
@[simp] theorem println_sd (t : String) (m : Machine) : (m.println t).sd = m.sd := by
  cases m; rfl
@[simp] theorem printNum_board (n : Nat) (m : Machine) : (m.printNum n).board = m.board := by
  cases m; rfl
@[simp] theorem printNum_sd (n : Nat) (m : Machine) : (m.printNum n).sd = m.sd := by
  cases m; rfl
@[simp] theorem printlnNum_board (n : Nat) (m : Machine) : (m.printlnNum n).board = m.board := by
  cases m; rfl
@[simp] theorem printlnNum_sd (n : Nat) (m : Machine) : (m.printlnNum n).sd = m.sd := by
  cases m; rfl
@[simp] theorem printChar_board (c : Char) (m : Machine) : (m.printChar c).board = m.board := by
  cases m; rfl
@[simp] theorem printChar_sd (c : Char) (m : Machine) : (m.printChar c).sd = m.sd := by
  cases m; rfl

/-- What `WriteFileToRAM` leaves in the chip for a file of up to twice the
capacity: beyond 65536 bytes the address counter wraps and the upload
overwrites the cells from address 0 on. -/
theorem WriteFileToRAM_wraps (filename : String) (m : Machine) (content : List Byte)
    (hf : m.sd.files filename = some content) (hl : content.length ≤ 131072)
    (hw : Wired m.board) (hs : Selected m.board) :
    (∀ a, (WriteFileToRAM filename m).board.mem a
      = if a < 65536 ∧ a + 65536 < content.length / PART_SIZE * PART_SIZE
          then content.getD (a + 65536) 0
        else if a < 65536 ∧ a < content.length / PART_SIZE * PART_SIZE then content.getD a 0
        else m.board.mem a) ∧
    Wired (WriteFileToRAM filename m).board ∧ Selected (WriteFileToRAM filename m).board ∧
    (WriteFileToRAM filename m).sd = m.sd := by
  have e1 : content.length % 4294967296 = content.length := Nat.mod_eq_of_lt (by omega)
  have e2 : content.length / PART_SIZE % 65536 = content.length / PART_SIZE :=
    Nat.mod_eq_of_lt (by unfold PART_SIZE; omega)
  simp only [WriteFileToRAM, hf, Option.getD_some, e1, e2, print_board, println_board,
    printNum_board, print_sd, println_sd, printNum_sd]
  generalize (Machine.println " bytes to write."
    (Machine.printNum content.length (Machine.print "Starting upload: " m))).serial = ser
  have h0 : WriteInv content { board := SetDataBus OUTPUT m.board, sd := m.sd, serial := ser } 0
      { buf := List.replicate PART_SIZE 0, pos := 0, addr := 0, fail := false,
        m := { board := SetDataBus OUTPUT m.board, sd := m.sd, serial := ser } } :=
    ⟨rfl, SetDataBus_wired _ hw, SetDataBus_selected _ hs, SetDataBus_output _, rfl, rfl,
      fun a => by simp⟩
  obtain ⟨⟨-, w, s, -, hsd, -, hm⟩, -⟩ := write_chunks content _ _ rfl h0 hl
    (content.length / PART_SIZE) (Nat.div_mul_le_self _ _)
  refine ⟨fun a => ?_, w, s, hsd⟩
  rw [hm a]
  simp only [SetDataBus_mem _ _ (quiet_of_selected hs)]

theorem WriteFileToRAM_spec (filename : String) (m : Machine) (content : List Byte)
    (hf : m.sd.files filename = some content) (hl : content.length ≤ 65536)
    (hw : Wired m.board) (hs : Selected m.board) :
    (∀ a, (WriteFileToRAM filename m).board.mem a
      = if a < content.length / PART_SIZE * PART_SIZE then content.getD a 0 else m.board.mem a) ∧
    Wired (WriteFileToRAM filename m).board ∧ Selected (WriteFileToRAM filename m).board ∧
    (WriteFileToRAM filename m).sd = m.sd := by
  obtain ⟨hm, w, s, hsd⟩ := WriteFileToRAM_wraps filename m content hf (by omega) hw hs
  refine ⟨fun a => ?_, w, s, hsd⟩
  have hle := Nat.div_mul_le_self content.length PART_SIZE
  rw [hm a, if_neg (by omega)]
  by_cases c : a < content.length / PART_SIZE * PART_SIZE
  · rw [if_pos c, if_pos ⟨by omega, c⟩]
  · rw [if_neg c, if_neg (by omega)]

theorem compareByteStep_board (j : Nat) (st : Xfer) :
    (compareByteStep j st).m.board = (ReadRAM st.addr st.m.board).2 := by
  simp only [compareByteStep, DEBUG_SERIAL, if_true]
  split <;> simp

theorem compareByteStep_sd (j : Nat) (st : Xfer) : (compareByteStep j st).m.sd = st.m.sd := by
  simp only [compareByteStep, DEBUG_SERIAL, if_true]
  split <;> simp

theorem compareByteStep_addr (j : Nat) (st : Xfer) :
    (compareByteStep j st).addr = (st.addr + 1) % 65536 := by
  simp only [compareByteStep]

theorem compareByteStep_buf (j : Nat) (st : Xfer) : (compareByteStep j st).buf = st.buf := by
  simp only [compareByteStep]
  split <;> rfl

theorem compareByteStep_pos (j : Nat) (st : Xfer) : (compareByteStep j st).pos = st.pos := by
  simp only [compareByteStep]
  split <;> rfl

theorem compareByteStep_fail (j : Nat) (st : Xfer) :
    (compareByteStep j st).fail
      = if (ReadRAM st.addr st.m.board).1 ≠ st.buf.getD j 0 then true else st.fail := by
  simp only [compareByteStep]
  split <;> rfl

theorem compareByteStep_inv (content : List Byte) (m0 : Machine) (n j : Nat) (st : Xfer)
    (hn : n < 65536) (hb : st.buf.getD j 0 = (content.getD n 0).val)
    (h : CompareInv content m0 n st) : CompareInv content m0 (n + 1) (compareByteStep j st) := by
  obtain ⟨ha, w, s, i, hsd, hm, hf⟩ := h
  unfold CompareInv
  rw [compareByteStep_board, compareByteStep_addr, compareByteStep_sd, compareByteStep_fail,
    ReadRAM_val _ w s i, ReadRAM_mem _ w s, ha, Nat.mod_mod, Nat.mod_eq_of_lt hn, hb, hm]
  refine ⟨rfl, ReadRAM_wired _ w, ReadRAM_selected _ s, ReadRAM_busIn _ i, hsd, rfl, ?_⟩
  by_cases hc : (m0.board.mem n).val = (content.getD n 0).val
  · rw [if_neg (not_not.mpr hc), hf]
    constructor
    · intro h1 a ha1
      by_cases h2 : a = n
      · subst h2; exact (Fin.ext hc).symm
      · exact h1 a (by omega)
    · intro h1 a ha1
      exact h1 a (by omega)
  · rw [if_pos hc]
    constructor
    · intro h1; cases h1
    · intro h1
      exact absurd (congrArg Fin.val (h1 n (by omega))).symm hc

/-- The inner loop of `CompareRAMContents` over the first `j` bytes of a
chunk that starts at address `n`. -/
theorem compare_bytes (content : List Byte) (m0 : Machine) (n : Nat) (st : Xfer)
    (hb : ∀ j, j < PART_SIZE → st.buf.getD j 0 = (content.getD (n + j) 0).val)
    (h : CompareInv content m0 n st) (j : Nat) (hj : j ≤ PART_SIZE) (hn : n + j ≤ 65536) :
    CompareInv content m0 (n + j) (forLoop j compareByteStep st) ∧
    (forLoop j compareByteStep st).buf = st.buf ∧ (forLoop j compareByteStep st).pos = st.pos := by
  induction j with
  | zero => exact ⟨h, rfl, rfl⟩
  | succ k ih =>
    obtain ⟨i1, i2, i3⟩ := ih (by omega) (by omega)
    rw [forLoop_succ, compareByteStep_buf, compareByteStep_pos]
    exact ⟨compareByteStep_inv content m0 (n + k) k _ (by omega)
        (by rw [i2]; exact hb k (by omega)) i1, i2, i3⟩

theorem compareChunkStep_eq (content : List Byte) (i : Nat) (st : Xfer) :
    compareChunkStep content i st = forLoop PART_SIZE compareByteStep
      { buf := (readBytes content st.pos st.buf PART_SIZE).1,
        pos := (readBytes content st.pos st.buf PART_SIZE).2,
        addr := st.addr, fail := st.fail, m := st.m } := rfl

/-- The outer loop of `CompareRAMContents` after `i` chunks. -/
theorem compare_chunks (content : List Byte) (m0 : Machine) (st0 : Xfer)
    (hp : st0.pos = 0) (h : CompareInv content m0 0 st0)
    (i : Nat) (hi : i * PART_SIZE ≤ content.length) (hl : i * PART_SIZE ≤ 65536) :
    CompareInv content m0 (i * PART_SIZE) (forLoop i (compareChunkStep content) st0) ∧
    (forLoop i (compareChunkStep content) st0).pos = i * PART_SIZE := by
  induction i with
  | zero => exact ⟨by simpa using h, by simpa using hp⟩
  | succ k ih =>
    have e : (k + 1) * PART_SIZE = k * PART_SIZE + PART_SIZE := by ring
    have hk : k * PART_SIZE + PART_SIZE ≤ content.length := by omega
    obtain ⟨i1, i2⟩ := ih (by omega) (by omega)
    rw [forLoop_succ, compareChunkStep_eq]
    generalize forLoop k (compareChunkStep content) st0 = S at i1 i2
    have key := compare_bytes content m0 (k * PART_SIZE)
      { buf := (readBytes content S.pos S.buf PART_SIZE).1,
        pos := (readBytes content S.pos S.buf PART_SIZE).2,
        addr := S.addr, fail := S.fail, m := S.m }
      (fun j hj => by
        show (readBytes content S.pos S.buf PART_SIZE).1.getD j 0 = _
        rw [i2]
        exact readBytes_getD content _ _ hk j hj)
      i1 PART_SIZE (le_refl _) (by omega)
    rw [e]
    refine ⟨key.1, ?_⟩
    rw [key.2.2]
    show (readBytes content S.pos S.buf PART_SIZE).2 = _
    rw [i2, readBytes_pos content _ _ hk]

theorem CompareRAMContents_spec (filename : String) (m : Machine) (content : List Byte)
    (hf : m.sd.files filename = some content) (hl : content.length ≤ 65536)
    (hw : Wired m.board) (hs : Selected m.board) :
    ((CompareRAMContents filename m).1 = true ↔
      ∀ a, a < content.length / PART_SIZE * PART_SIZE → content.getD a 0 = m.board.mem a) ∧
    Wired (CompareRAMContents filename m).2.board ∧
    Selected (CompareRAMContents filename m).2.board ∧
    (CompareRAMContents filename m).2.sd = m.sd ∧
    (CompareRAMContents filename m).2.board.mem = m.board.mem := by
  have e1 : content.length % 4294967296 = content.length := Nat.mod_eq_of_lt (by omega)
  have e2 : content.length / PART_SIZE % 65536 = content.length / PART_SIZE :=
    Nat.mod_eq_of_lt (by unfold PART_SIZE; omega)
  simp only [CompareRAMContents, hf, Option.getD_some, e1, e2, print_board, println_board,
    printNum_board, print_sd, println_sd, printNum_sd]
  generalize (Machine.println " bytes to check." (Machine.printNum content.length
    (Machine.print " " (Machine.print filename
      (Machine.print "Starting integrity check: " m))))).serial = ser
  have h0 : CompareInv content { board := SetDataBus INPUT m.board, sd := m.sd, serial := ser } 0
      { buf := List.replicate PART_SIZE 0, pos := 0, addr := 0, fail := false,
        m := { board := SetDataBus INPUT m.board, sd := m.sd, serial := ser } } :=
    ⟨rfl, SetDataBus_wired _ hw, SetDataBus_selected _ hs, SetDataBus_input _, rfl, rfl,
      by simp⟩
  obtain ⟨⟨-, w, s, -, hsd, hm, hfail⟩, -⟩ := compare_chunks content _ _ rfl h0
    (content.length / PART_SIZE) (Nat.div_mul_le_self _ _)
    (le_trans (Nat.div_mul_le_self _ _) hl)
  simp only [SetDataBus_mem _ _ (quiet_of_selected hs)] at hm hfail
  refine ⟨?_, w, s, hsd, hm⟩
  rw [← hfail]
  simp

theorem getElem?_eq_some_getD (content : List Byte) (a : Nat) (h : a < content.length) :
    content[a]? = some (content.getD a 0) := by
  rw [List.getD_eq_getElem?_getD, List.getElem?_eq_getElem h]
  rfl

/-! ### A mismatch is never forgotten -/

theorem compareByteStep_fail_mono (j : Nat) (st : Xfer) (h : st.fail = true) :
    (compareByteStep j st).fail = true := by
  rw [compareByteStep_fail, h, ite_self]

theorem compare_bytes_fail_mono (st : Xfer) (h : st.fail = true) (j : Nat) :
    (forLoop j compareByteStep st).fail = true := by
  induction j with
  | zero => exact h
  | succ k ih => rw [forLoop_succ]; exact compareByteStep_fail_mono k _ ih

theorem compareChunkStep_fail_mono (content : List Byte) (i : Nat) (st : Xfer)
    (h : st.fail = true) : (compareChunkStep content i st).fail = true := by
  rw [compareChunkStep_eq]
  exact compare_bytes_fail_mono (Xfer.mk (readBytes content st.pos st.buf PART_SIZE).1
    (readBytes content st.pos st.buf PART_SIZE).2 st.addr st.fail st.m) h PART_SIZE

theorem compare_chunks_fail_mono (content : List Byte) (st : Xfer) (k : Nat)
    (h : (forLoop k (compareChunkStep content) st).fail = true) (d : Nat) :
    (forLoop (k + d) (compareChunkStep content) st).fail = true := by
  induction d with
  | zero => exact h
  | succ e ih =>
    rw [← Nat.add_assoc, forLoop_succ]
    exact compareChunkStep_fail_mono content _ _ ih

/-- A file of at least one chunk whose first byte differs from cell 0 fails
the comparison, whatever its length up to twice the capacity. -/
theorem CompareRAMContents_first_byte (filename : String) (m : Machine) (content : List Byte)
    (hf : m.sd.files filename = some content) (h1 : PART_SIZE ≤ content.length)
    (h2 : content.length ≤ 131072) (hw : Wired m.board) (hs : Selected m.board)
    (hne : content.getD 0 0 ≠ m.board.mem 0) :
    (CompareRAMContents filename m).1 = false := by
  have e1 : content.length % 4294967296 = content.length := Nat.mod_eq_of_lt (by omega)
  have e2 : content.length / PART_SIZE % 65536 = content.length / PART_SIZE :=
    Nat.mod_eq_of_lt (by unfold PART_SIZE; omega)
  have e3 : content.length / PART_SIZE = 1 + (content.length / PART_SIZE - 1) := by
    have : 1 ≤ content.length / PART_SIZE := by
      unfold PART_SIZE at h1 ⊢; omega
    omega
  simp only [CompareRAMContents, hf, Option.getD_some, e1, e2, print_board, println_board,
    printNum_board, print_sd, println_sd, printNum_sd]
  generalize (Machine.println " bytes to check." (Machine.printNum content.length
    (Machine.print " " (Machine.print filename
      (Machine.print "Starting integrity check: " m))))).serial = ser
  have h0 : CompareInv content { board := SetDataBus INPUT m.board, sd := m.sd, serial := ser } 0
      { buf := List.replicate PART_SIZE 0, pos := 0, addr := 0, fail := false,
        m := { board := SetDataBus INPUT m.board, sd := m.sd, serial := ser } } :=
    ⟨rfl, SetDataBus_wired _ hw, SetDataBus_selected _ hs, SetDataBus_input _, rfl, rfl,
      by simp⟩
  obtain ⟨⟨-, -, -, -, -, -, hfail⟩, -⟩ := compare_chunks content _ _ rfl h0 1
    (by omega) (by unfold PART_SIZE; omega)
  simp only [SetDataBus_mem _ _ (quiet_of_selected hs)] at hfail
  have hfl : (forLoop 1 (compareChunkStep content)
      { buf := List.replicate PART_SIZE 0, pos := 0, addr := 0, fail := false,
        m := { board := SetDataBus INPUT m.board, sd := m.sd, serial := ser } }).fail = true := by
    cases hc : (forLoop 1 (compareChunkStep content)
      { buf := List.replicate PART_SIZE 0, pos := 0, addr := 0, fail := false,
        m := { board := SetDataBus INPUT m.board, sd := m.sd, serial := ser } }).fail
    · exact absurd (hfail.mp hc 0 (by unfold PART_SIZE; omega)) hne
    · rfl
  rw [e3, compare_chunks_fail_mono content _ 1 hfl]
  rfl

/-- A file of more than 65536 bytes whose byte 65536 differs from its byte 0
cannot pass the check after its own upload: the upload wraps around and
puts byte 65536 in cell 0, the check compares cell 0 with byte 0, and
`UploadFileToRAM` ends in the endless loop. -/
theorem UploadFileToRAM_oversized_halts (filename : String) (m : Machine)
    (content : List Byte) (hf : m.sd.files filename = some content)
    (h1 : 65536 + 128 ≤ content.length) (h2 : content.length ≤ 131072)
    (hw : Wired m.board) (hne : content.getD 65536 0 ≠ content.getD 0 0) :
    (UploadFileToRAM filename m).isHalted = true := by
  have hex : m.sd.fileExists filename = true := by
    simp only [SDCard.fileExists, hf, Option.isSome_some]
  have s0 := SelectRAMChip_high_selected m.board
  have w0 := SelectRAMChip_wired HIGH hw
  obtain ⟨hm, w1, s1, hsd⟩ := WriteFileToRAM_wraps filename
    (Machine.println "Writing file to RAM" (Machine.mk (SelectRAMChip HIGH m.board) m.sd m.serial))
    content (by rw [println_sd]; exact hf) h2 (by rw [println_board]; exact w0)
    (by rw [println_board]; exact s0)
  have hcell := hm 0
  have hlen : 65536 + 128 ≤ content.length / PART_SIZE * PART_SIZE := by
    unfold PART_SIZE; omega
  rw [if_pos ⟨by omega, by omega⟩] at hcell
  have hc := CompareRAMContents_first_byte filename
    (Machine.println "Data upload complete." (WriteFileToRAM filename
      (Machine.println "Writing file to RAM"
        (Machine.mk (SelectRAMChip HIGH m.board) m.sd m.serial))))
    content (by rw [println_sd, hsd, println_sd]; exact hf) (by unfold PART_SIZE; omega) h2
    (by rw [println_board]; exact w1) (by rw [println_board]; exact s1)
    (by rw [println_board, hcell]; exact Ne.symm hne)
  simp only [UploadFileToRAM, hex, Bool.not_true, Bool.false_eq_true, if_false, hc]
  rfl

/-! ## The command dispatcher -/

theorem toList_load (name : String) :
    ("load " ++ name).toList = 'l' :: 'o' :: 'a' :: 'd' :: ' ' :: name.toList := by
  simp [String.toList, String.data_append]

theorem toList_fdump (name : String) :
    ("fdump " ++ name).toList = 'f' :: 'd' :: 'u' :: 'm' :: 'p' :: ' ' :: name.toList := by
  simp [String.toList, String.data_append]

theorem strtok_load (name : String) : strtok (toCharArray ("load " ++ name) 64) = some "load" := by
  simp [strtok, toCharArray, toList_load, List.dropWhile, List.takeWhile]

theorem strtok_fdump (name : String) :
    strtok (toCharArray ("fdump " ++ name) 64) = some "fdump" := by
  simp [strtok, toCharArray, toList_fdump, List.dropWhile, List.takeWhile]

theorem loopBody_load (name : String) (m : Machine) :
    loopBody ("load " ++ name) m = UploadFileToRAM "load" m := by
  have h1 : startsWith ("load " ++ name) "cdump" = false := by
    simp [startsWith, toList_load, String.toList, List.isPrefixOf]
  have h2 : startsWith ("load " ++ name) "load" = true := by
    simp [startsWith, toList_load, String.toList, List.isPrefixOf]
  simp only [loopBody, h1, h2, strtok_load, if_true, Bool.false_eq_true, if_false]

theorem loopBody_fdump (name : String) (m : Machine) :
    loopBody ("fdump " ++ name) m = Outcome.returned (SaveRAMToFile "fdump" m) := by
  have h1 : startsWith ("fdump " ++ name) "cdump" = false := by
    simp [startsWith, toList_fdump, String.toList, List.isPrefixOf]
  have h2 : startsWith ("fdump " ++ name) "load" = false := by
    simp [startsWith, toList_fdump, String.toList, List.isPrefixOf]
  have h3 : startsWith ("fdump " ++ name) "fzero" = false := by
    simp [startsWith, toList_fdump, String.toList, List.isPrefixOf]
  have h4 : startsWith ("fdump " ++ name) "fone" = false := by
    simp [startsWith, toList_fdump, String.toList, List.isPrefixOf]
  have h5 : startsWith ("fdump " ++ name) "f55" = false := by
    simp [startsWith, toList_fdump, String.toList, List.isPrefixOf]
  have h6 : startsWith ("fdump " ++ name) "faa" = false := by
    simp [startsWith, toList_fdump, String.toList, List.isPrefixOf]
  have h7 : startsWith ("fdump " ++ name) "fdump" = true := by
    simp [startsWith, toList_fdump, String.toList, List.isPrefixOf]
  simp only [loopBody, h1, h2, h3, h4, h5, h6, h7, strtok_fdump, if_true, Bool.false_eq_true,
    if_false]

theorem andThen_halted (o : Outcome) (f : Machine → Outcome) (h : o.isHalted = true) :
    o.andThen f = o := by
  cases o with
  | returned m => cases h
  | halted m => rfl

theorem loopBody_bare_load (m : Machine) : loopBody "load" m = UploadFileToRAM "load" m := by
  have h1 : startsWith "load" "cdump" = false := by decide
  have h2 : startsWith "load" "load" = true := by decide
  have h3 : strtok (toCharArray "load" 64) = some "load" := by decide
  simp only [loopBody, h1, h2, h3, if_true, Bool.false_eq_true, if_false]

theorem loopBody_bare_fdump (m : Machine) :
    loopBody "fdump" m = Outcome.returned (SaveRAMToFile "fdump" m) := by
  have h1 : startsWith "fdump" "cdump" = false := by decide
  have h2 : startsWith "fdump" "load" = false := by decide
  have h3 : startsWith "fdump" "fzero" = false := by decide
  have h4 : startsWith "fdump" "fone" = false := by decide
  have h5 : startsWith "fdump" "f55" = false := by decide
  have h6 : startsWith "fdump" "faa" = false := by decide
  have h7 : startsWith "fdump" "fdump" = true := by decide
  have h8 : strtok (toCharArray "fdump" 64) = some "fdump" := by decide
  simp only [loopBody, h1, h2, h3, h4, h5, h6, h7, h8, if_true, Bool.false_eq_true, if_false]

theorem saveByteStep_files (filename : String) (i : Nat) (m : Machine) :
    (saveByteStep filename true i m).sd.files filename
      = some ((m.sd.files filename).getD [] ++ [Fin.ofNat (ReadRAM i m.board).1]) := by
  simp only [saveByteStep, if_true, SDCard.append, Function.update_same]

theorem save_loop_files (filename : String) (m : Machine) (l : List Byte)
    (h : m.sd.files filename = some l) (n : Nat) :
    ∃ l2, (forLoop n (saveByteStep filename true) m).sd.files filename = some l2 ∧
      l2.length = l.length + n := by
  induction n with
  | zero => exact ⟨l, h, rfl⟩
  | succ k ih =>
    obtain ⟨l2, h2, h3⟩ := ih
    refine ⟨l2 ++ [Fin.ofNat (ReadRAM k (forLoop k (saveByteStep filename true) m).board).1], ?_, ?_⟩
    · rw [forLoop_succ, saveByteStep_files, h2]
      rfl
    · rw [List.length_append, h3]
      rfl

/-- On a name that does not exist and can be created, `SaveRAMToFile`
leaves a file of 65536 bytes under that name. -/
theorem SaveRAMToFile_creates (filename : String) (m : Machine)
    (h1 : m.sd.fileExists filename = false) (h2 : m.sd.canCreate filename = true) :
    ∃ l, (SaveRAMToFile filename m).sd.files filename = some l ∧ l.length = 65536 := by
  have h0 : (Machine.mk (SetDataBus INPUT (SelectRAMChip HIGH m.board)) (m.sd.create filename)
      m.serial).sd.files filename = some [] := by
    simp only [SDCard.create, Function.update_same]
  obtain ⟨l, e1, e2⟩ := save_loop_files filename _ [] h0 65536
  refine ⟨l, ?_, by simpa using e2⟩
  simp only [SaveRAMToFile, h1, h2, if_true, Bool.false_eq_true, if_false, println_sd,
    RAM_CHIP_CAPACITY]
  exact e1

theorem oversizedFile_length : oversizedFile.length = 65664 := by
  rw [oversizedFile, List.length_append, List.length_replicate, List.length_replicate]

theorem oversizedFile_bytes : oversizedFile.getD 65536 0 ≠ oversizedFile.getD 0 0 := by
  have e1 : oversizedFile.getD 65536 0 = 1 := by
    rw [oversizedFile, List.getD_eq_getElem?_getD,
      List.getElem?_append_right (by rw [List.length_replicate]), List.length_replicate,
      List.getElem?_replicate]
    rfl
  have e2 : oversizedFile.getD 0 0 = 0 := by
    rw [oversizedFile, List.getD_eq_getElem?_getD,
      List.getElem?_append_left (by rw [List.length_replicate]; decide),
      List.getElem?_replicate]
    rfl
  rw [e1, e2]
  decide

theorem UploadFileToRAM_oversizedCard (name : String) (m : Machine) (hw : Wired m.board)
    (hsd : m.sd = oversizedCard name) : (UploadFileToRAM name m).isHalted = true := by
  have hfile : m.sd.files name = some oversizedFile := by
    rw [hsd]
    simp only [oversizedCard, if_true]
  exact UploadFileToRAM_oversized_halts _ _ oversizedFile hfile
    (by rw [oversizedFile_length]) (by rw [oversizedFile_length]; decide) hw oversizedFile_bytes

/-- With an oversized `data.bin` on the card `setup()` halts, whatever the
chip holds. -/
theorem setup_halts_on_oversized_file (mem : Nat → Byte) :
    (setup (resetMachine mem (oversizedCard "data.bin"))).isHalted = true := by
  have hok : (resetMachine mem (oversizedCard "data.bin")).sd.ok = true := by
    simp only [resetMachine, oversizedCard]
  simp only [setup, hok, Bool.not_true, Bool.false_eq_true, if_false]
  exact UploadFileToRAM_oversizedCard _ _ (setupPins_wired mem) rfl

/-- With an oversized file called `load` on the card every `load` command
halts, whatever name it gives. -/
theorem load_halts_on_oversized_file (mem : Nat → Byte) (name : String) :
    (loopBody ("load " ++ name) (wiredMachine mem (oversizedCard "load"))).isHalted = true := by
  rw [loopBody_load]
  exact UploadFileToRAM_oversizedCard _ _ (setupPins_wired mem) rfl

/-! ## `DumpRAM` -/

theorem mk_append_mk (a b : List Char) : String.mk a ++ String.mk b = String.mk (a ++ b) := rfl

theorem append_push (s t : String) (c : Char) : (s ++ t).push c = s ++ t.push c := by
  apply String.ext
  simp [String.data_append, String.data_push]

theorem print_printChar (t : String) (c : Char) (m : Machine) :
    (m.print t).printChar c = m.print (t.push c) := by
  simp only [Machine.print, Machine.printChar, append_push]

theorem print_empty (m : Machine) : m.print "" = m := by
  simp only [Machine.print, String.append_empty]

theorem print_print (s t : String) (m : Machine) : (m.print s).print t = m.print (s ++ t) := by
  simp only [Machine.print, String.append_assoc]

theorem PrintFromBuf_take (buf : List Char) (m : Machine) (n : Nat) (hn : n ≤ buf.length) :
    PrintFromBuf buf n m = m.print (String.mk (buf.take n)) := by
  induction n with
  | zero => simp only [PrintFromBuf, forLoop_zero, List.take_zero]; exact (print_empty m).symm
  | succ k ih =>
    have hk : k < buf.length := by omega
    have e := ih (by omega)
    unfold PrintFromBuf at e ⊢
    rw [forLoop_succ, e, print_printChar]
    congr 1
    apply String.ext
    rw [String.data_push, List.take_succ, List.getD_eq_getElem?_getD,
      List.getElem?_eq_getElem hk]
    rfl

theorem PrintFromBuf_eq (buf : List Char) (m : Machine) :
    PrintFromBuf buf buf.length m = m.print (String.mk buf) := by
  rw [PrintFromBuf_take buf m buf.length (le_refl _), List.take_length]

theorem dumpPrintStep_eq (data : List Nat) (k : Nat) (m : Machine) :
    dumpPrintStep data k m = m.print (String.mk (fmtHex 2 (data.getD k 0) ++ [' '])) := by
  simp only [dumpPrintStep]
  exact PrintFromBuf_eq _ m

theorem dump_print_loop (data : List Nat) (m : Machine) (n : Nat) :
    forLoop n (dumpPrintStep data) m = m.print (String.mk
      ((List.range n).map (fun k => fmtHex 2 (data.getD k 0) ++ [' '])).flatten) := by
  induction n with
  | zero => simp only [forLoop_zero, List.range_zero, List.map_nil, List.flatten_nil]
            exact (print_empty m).symm
  | succ k ih =>
    rw [forLoop_succ, ih, dumpPrintStep_eq, print_print, mk_append_mk, List.range_succ,
      List.map_append, List.flatten_append]
    simp

theorem dumpReadStep_fields (j : Nat) (st : DumpState) :
    (dumpReadStep j st).addr = (st.addr + 1) % 65536 ∧
    (dumpReadStep j st).m.board = (ReadRAM st.addr st.m.board).2 ∧
    (dumpReadStep j st).m.sd = st.m.sd ∧
    (dumpReadStep j st).m.serial = st.m.serial ∧
    (dumpReadStep j st).data = st.data.set j (ReadRAM st.addr st.m.board).1 := by
  simp only [dumpReadStep]
  exact ⟨trivial, trivial, trivial, trivial, trivial⟩

theorem dumpReadStep_inv (m0 : Machine) (n j : Nat) (st : DumpState) (hn : n + j < 65536)
    (hj : j < 32) (h : DumpReadInv m0 n j st) : DumpReadInv m0 n (j + 1) (dumpReadStep j st) := by
  obtain ⟨ha, w, s, i, hm, hsd, hser, hl, hd⟩ := h
  obtain ⟨f1, f2, f3, f4, f5⟩ := dumpReadStep_fields j st
  unfold DumpReadInv
  rw [f1, f2, f3, f4, f5, ReadRAM_mem _ w s, ReadRAM_val _ w s i, ha, Nat.mod_mod,
    Nat.mod_eq_of_lt hn, hm]
  refine ⟨by rw [Nat.add_assoc], ReadRAM_wired _ w, ReadRAM_selected _ s, ReadRAM_busIn _ i, rfl,
    hsd, hser, by rw [List.length_set]; exact hl, ?_⟩
  intro k hk
  rw [List.getD_eq_getElem?_getD, List.getElem?_set]
  by_cases e : j = k
  · subst e
    rw [if_pos rfl, if_pos (by omega)]
    rfl
  · rw [if_neg e, ← List.getD_eq_getElem?_getD]
    exact hd k (by omega)

theorem dump_read_loop (m0 : Machine) (n : Nat) (st : DumpState) (h : DumpReadInv m0 n 0 st)
    (j : Nat) (hj : j ≤ 32) (hn : n + j ≤ 65536) :
    DumpReadInv m0 n j (forLoop j dumpReadStep st) := by
  induction j with
  | zero => exact h
  | succ k ih =>
    rw [forLoop_succ]
    exact dumpReadStep_inv m0 n k _ (by omega) (by omega) (ih (by omega) (by omega))

theorem dumpRowStep_eq (i : Nat) (st : DumpState) :
    dumpRowStep i st =
      { addr := (forLoop DUMP_CHUNK_SIZE dumpReadStep
          { addr := st.addr, data := List.replicate DUMP_CHUNK_SIZE 0, m := st.m }).addr,
        data := (forLoop DUMP_CHUNK_SIZE dumpReadStep
          { addr := st.addr, data := List.replicate DUMP_CHUNK_SIZE 0, m := st.m }).data,
        m := Machine.println "" (forLoop DUMP_CHUNK_SIZE
          (dumpPrintStep (forLoop DUMP_CHUNK_SIZE dumpReadStep
            { addr := st.addr, data := List.replicate DUMP_CHUNK_SIZE 0, m := st.m }).data)
          (PrintFromBuf (fmtHex 4 (i * DUMP_CHUNK_SIZE % 65536) ++ [':', ' ', ' '])
            (fmtHex 4 (i * DUMP_CHUNK_SIZE % 65536) ++ [':', ' ', ' ']).length
            (forLoop DUMP_CHUNK_SIZE dumpReadStep
              { addr := st.addr, data := List.replicate DUMP_CHUNK_SIZE 0, m := st.m }).m)) } := by
  simp only [dumpRowStep]

theorem dumpRowStep_inv (m0 : Machine) (i : Nat) (st : DumpState) (hi : i < 2048)
    (h : DumpInv m0 i st) : DumpInv m0 (i + 1) (dumpRowStep i st) := by
  obtain ⟨ha, w, s, bi, hm, hsd, hser⟩ := h
  have h0 : DumpReadInv { board := m0.board, sd := m0.sd, serial := st.m.serial } (i * 32) 0
      { addr := st.addr, data := List.replicate DUMP_CHUNK_SIZE 0, m := st.m } :=
    ⟨ha, w, s, bi, hm, hsd, rfl, by simp [DUMP_CHUNK_SIZE], fun k hk => absurd hk (by omega)⟩
  have key := dump_read_loop _ (i * 32) _ h0 32 (le_refl _) (by omega)
  rw [dumpRowStep_eq]
  simp only [DUMP_CHUNK_SIZE] at key ⊢
  generalize forLoop 32 dumpReadStep
    { addr := st.addr, data := List.replicate 32 0, m := st.m } = R at key
  obtain ⟨ka, kw, ks, ki, km, ksd, kser, kl, kd⟩ := key
  simp only at km ksd kser kd
  unfold DumpInv
  simp only [println_board, println_sd, PrintFromBuf_eq, dump_print_loop, print_print,
    print_board, print_sd, mk_append_mk]
  refine ⟨by rw [ka]; congr 1; ring, kw, ks, ki, km, ksd, ?_⟩
  have hmap : (List.range 32).map (fun k => fmtHex 2 (R.data.getD k 0) ++ [' '])
      = (List.range 32).map (fun k => fmtHex 2 (m0.board.mem (i * 32 + k)).val ++ [' ']) := by
    apply List.map_congr_left
    intro k hk
    rw [kd k (List.mem_range.mp hk)]
  have hrow : String.mk (fmtHex 4 (i * 32 % 65536) ++ [':', ' ', ' ']
      ++ ((List.range 32).map (fun k => fmtHex 2 (m0.board.mem (i * 32 + k)).val
        ++ [' '])).flatten) = dumpRow m0.board.mem i := rfl
  rw [hmap, hrow]
  simp only [Machine.println, Machine.print, kser, hser, String.append_empty, String.empty_append]
  rw [List.range_succ, List.map_append, List.map_cons, List.map_nil, List.append_assoc]

theorem dump_rows (m0 : Machine) (st0 : DumpState) (h : DumpInv m0 0 st0) (i : Nat)
    (hi : i ≤ 2048) : DumpInv m0 i (forLoop i dumpRowStep st0) := by
  induction i with
  | zero => exact h
  | succ k ih =>
    rw [forLoop_succ]
    exact dumpRowStep_inv m0 k _ (by omega) (ih (by omega))

/-- The serial output of `DumpRAM`, started at the beginning of a line on a
board set up by `setup()` with the chip not selected: one line per row of
32 bytes, 2048 lines in all. -/
theorem DumpRAM_lines (m : Machine) (hw : Wired m.board) (hi : Idle m.board)
    (hc : m.serial.cur = "") :
    (DumpRAM m).serial = { lines := m.serial.lines ++ (List.range 2048).map (dumpRow m.board.mem),
                           cur := "" } := by
  have s0 := SelectRAMChip_high_selected m.board
  have h0 : DumpInv m 0 (DumpState.mk 0 (List.replicate DUMP_CHUNK_SIZE 0)
      (Machine.mk (SetDataBus INPUT (SelectRAMChip HIGH m.board)) m.sd m.serial)) := by
    refine ⟨rfl, SetDataBus_wired _ (SelectRAMChip_wired _ hw), SetDataBus_selected _ s0,
      SetDataBus_input _, ?_, rfl, ?_⟩
    · show (SetDataBus INPUT (SelectRAMChip HIGH m.board)).mem = _
      rw [SetDataBus_mem _ _ (quiet_of_selected s0), SelectRAMChip_high_mem _ hi]
    · show m.serial = _
      rw [List.range_zero, List.map_nil, List.append_nil, ← hc]
  obtain ⟨-, -, -, -, -, -, hser⟩ := dump_rows m _ h0 2048 (le_refl _)
  have e : RAM_CHIP_CAPACITY / DUMP_CHUNK_SIZE % 65536 = 2048 := by decide
  simp only [DumpRAM, e]
  exact hser

theorem hexDigits_small (f n : Nat) (hf : 0 < f) (hn : n < 16) : hexDigits f n = [hexDigit n] := by
  obtain ⟨k, rfl⟩ : ∃ k, f = k + 1 := ⟨f - 1, by omega⟩
  simp only [hexDigits, hn, if_true]

theorem hexDigits_step (f n : Nat) (hf : 0 < f) (hn : 16 ≤ n) :
    hexDigits f n = hexDigits (f - 1) (n / 16) ++ [hexDigit (n % 16)] := by
  obtain ⟨k, rfl⟩ : ∃ k, f = k + 1 := ⟨f - 1, by omega⟩
  have h : ¬ n < 16 := by omega
  simp only [hexDigits, h, if_false, Nat.add_sub_cancel]

/-- For a 16-bit argument `%04x` gives exactly the four hexadecimal digits. -/
theorem fmtHex_four (n : Nat) (hn : n < 65536) :
    fmtHex 4 n = [hexDigit (n / 4096), hexDigit (n / 256 % 16), hexDigit (n / 16 % 16),
      hexDigit (n % 16)] := by
  have z : hexDigit 0 = '0' := by decide
  unfold fmtHex
  by_cases h1 : n < 16
  · rw [hexDigits_small _ _ (by omega) h1]
    have e1 : n / 4096 = 0 := by omega
    have e2 : n / 256 % 16 = 0 := by omega
    have e3 : n / 16 % 16 = 0 := by omega
    have e4 : n % 16 = n := by omega
    rw [e1, e2, e3, e4, z]
    rfl
  · rw [hexDigits_step _ _ (by omega) (by omega)]
    by_cases h2 : n / 16 < 16
    · rw [hexDigits_small _ _ (by omega) h2]
      have e1 : n / 4096 = 0 := by omega
      have e2 : n / 256 % 16 = 0 := by omega
      have e3 : n / 16 % 16 = n / 16 := by omega
      rw [e1, e2, e3, z]
      rfl
    · rw [hexDigits_step _ _ (by omega) (by omega)]
      have d1 : n / 16 / 16 = n / 256 := by omega
      rw [d1]
      by_cases h3 : n / 256 < 16
      · rw [hexDigits_small _ _ (by omega) h3]
        have e1 : n / 4096 = 0 := by omega
        have e2 : n / 256 % 16 = n / 256 := by omega
        rw [e1, e2, z]
        rfl
      · rw [hexDigits_step _ _ (by omega) (by omega)]
        have d2 : n / 256 / 16 = n / 4096 := by omega
        rw [d2, hexDigits_small _ _ (by omega) (by omega)]
        rfl

/-- The row of a chip that holds `0xAA` in the cells of the row. -/
theorem dumpRow_aa (mem : Nat → Byte) (i : Nat) (hi : i < 2048)
    (hm : ∀ a, a < 65536 → mem a = 0xAA) :
    dumpRow mem i = String.mk ([hexDigit (32 * i / 4096), hexDigit (32 * i / 256 % 16),
      hexDigit (32 * i / 16 % 16), hexDigit (32 * i % 16)] ++ ":  ".toList
      ++ (List.replicate 32 "aa ".toList).flatten) := by
  have e0 : i * 32 % 65536 = 32 * i := by omega
  have e1 : (List.range 32).map (fun k => fmtHex 2 (mem (i * 32 + k)).val ++ [' '])
      = (List.range 32).map (fun _ => "aa ".toList) := by
    apply List.map_congr_left
    intro k hk
    have hk2 := List.mem_range.mp hk
    rw [hm (i * 32 + k) (by omega)]
    decide
  have e2 : (List.range 32).map (fun _ => "aa ".toList) = List.replicate 32 "aa ".toList := by
    decide
  unfold dumpRow
  rw [e0, e1, e2, fmtHex_four _ (by omega)]
  rfl

/-! ## The state between commands -/

theorem write_bytes_wired (st : Xfer) (h : Wired st.m.board) (j : Nat) :
    Wired (forLoop j writeByteStep st).m.board := by
  induction j with
  | zero => exact h
  | succ k ih =>
    rw [forLoop_succ, writeByteStep_board]
    exact WriteRAM_wired _ _ ih

theorem write_chunks_wired (content : List Byte) (st : Xfer) (h : Wired st.m.board) (i : Nat) :
    Wired (forLoop i (writeChunkStep content) st).m.board := by
  induction i with
  | zero => exact h
  | succ k ih =>
    rw [forLoop_succ, writeChunkStep_eq]
    generalize forLoop k (writeChunkStep content) st = S at ih ⊢
    exact write_bytes_wired (Xfer.mk (readBytes content S.pos S.buf PART_SIZE).1
      (readBytes content S.pos S.buf PART_SIZE).2 S.addr S.fail S.m) ih PART_SIZE

theorem WriteFileToRAM_wired (filename : String) (m : Machine) (h : Wired m.board) :
    Wired (WriteFileToRAM filename m).board := by
  simp only [WriteFileToRAM, println_board, printNum_board, print_board]
  exact write_chunks_wired _ (Xfer.mk _ _ _ _ _) (SetDataBus_wired _ h) _

theorem compare_bytes_wired (st : Xfer) (h : Wired st.m.board) (j : Nat) :
    Wired (forLoop j compareByteStep st).m.board := by
  induction j with
  | zero => exact h
  | succ k ih =>
    rw [forLoop_succ, compareByteStep_board]
    exact ReadRAM_wired _ ih

theorem compare_chunks_wired (content : List Byte) (st : Xfer) (h : Wired st.m.board) (i : Nat) :
    Wired (forLoop i (compareChunkStep content) st).m.board := by
  induction i with
  | zero => exact h
  | succ k ih =>
    rw [forLoop_succ, compareChunkStep_eq]
    generalize forLoop k (compareChunkStep content) st = S at ih ⊢
    exact compare_bytes_wired (Xfer.mk (readBytes content S.pos S.buf PART_SIZE).1
      (readBytes content S.pos S.buf PART_SIZE).2 S.addr S.fail S.m) ih PART_SIZE

theorem CompareRAMContents_wired (filename : String) (m : Machine) (h : Wired m.board) :
    Wired (CompareRAMContents filename m).2.board := by
  simp only [CompareRAMContents, println_board, printNum_board, print_board]
  exact compare_chunks_wired _ (Xfer.mk _ _ _ _ _) (SetDataBus_wired _ h) _

theorem println_ready (t : String) (m : Machine) (hw : Wired m.board) (hi : Idle m.board) :
    Ready (m.println t) := by
  refine ⟨?_, ?_, ?_⟩
  · rw [println_board]; exact hw
  · rw [println_board]; exact hi
  · simp only [Machine.println]

/-- `UploadFileToRAM`, when it returns, leaves the machine ready for the
next command. -/
theorem UploadFileToRAM_ready (filename : String) (m m2 : Machine) (h : Ready m)
    (hr : UploadFileToRAM filename m = Outcome.returned m2) : Ready m2 := by
  obtain ⟨hw, hi, hc⟩ := h
  unfold UploadFileToRAM at hr
  by_cases h1 : (!m.sd.fileExists filename) = true
  · rw [if_pos h1] at hr
    cases hr
    exact println_ready _ _ (by rw [print_board]; exact hw) (by rw [print_board]; exact hi)
  · rw [if_neg h1] at hr
    have w0 : Wired (Machine.println "Writing file to RAM"
          (Machine.mk (SelectRAMChip HIGH m.board) m.sd m.serial)).board := by
      rw [println_board]
      exact SelectRAMChip_wired HIGH hw
    have w1 : Wired (CompareRAMContents filename (Machine.println "Data upload complete."
        (WriteFileToRAM filename (Machine.println "Writing file to RAM"
          (Machine.mk (SelectRAMChip HIGH m.board) m.sd m.serial))))).2.board :=
      CompareRAMContents_wired _ _ (by
        rw [println_board]
        exact WriteFileToRAM_wired _ _ w0)
    simp only at hr
    split at hr
    · cases hr
    · cases hr
      refine ⟨?_, ?_, ?_⟩
      · dsimp only
        exact SelectRAMChip_wired LOW (by rw [println_board]; exact w1)
      · exact SelectRAMChip_low_idle _
      · simp only [Machine.println]

theorem FillWithByte_ready (B : Nat) (m : Machine) (h : Ready m) : Ready (FillWithByte B m) := by
  refine ⟨FillWithByte_wired B m h.1, FillWithByte_idle B m, ?_⟩
  simp only [FillWithByte, Machine.println]

theorem DumpRAM_ready (m : Machine) (h : Ready m) : Ready (DumpRAM m) := by
  obtain ⟨hw, hi, hc⟩ := h
  have s0 := SelectRAMChip_high_selected m.board
  have h0 : DumpInv m 0 (DumpState.mk 0 (List.replicate DUMP_CHUNK_SIZE 0)
      (Machine.mk (SetDataBus INPUT (SelectRAMChip HIGH m.board)) m.sd m.serial)) := by
    refine ⟨rfl, SetDataBus_wired _ (SelectRAMChip_wired _ hw), SetDataBus_selected _ s0,
      SetDataBus_input _, ?_, rfl, ?_⟩
    · show (SetDataBus INPUT (SelectRAMChip HIGH m.board)).mem = _
      rw [SetDataBus_mem _ _ (quiet_of_selected s0), SelectRAMChip_high_mem _ hi]
    · show m.serial = _
      rw [List.range_zero, List.map_nil, List.append_nil, ← hc]
  obtain ⟨-, w, -, -, -, -, hser⟩ := dump_rows m _ h0 2048 (le_refl _)
  have e : RAM_CHIP_CAPACITY / DUMP_CHUNK_SIZE % 65536 = 2048 := by decide
  simp only [DumpRAM, e, Ready]
  exact ⟨SelectRAMChip_wired _ w, SelectRAMChip_low_idle _, by rw [hser]⟩

theorem saveByteStep_board (filename : String) (opened : Bool) (i : Nat) (m : Machine) :
    (saveByteStep filename opened i m).board = (ReadRAM i m.board).2 := by
  simp only [saveByteStep]

theorem save_loop_wired (filename : String) (opened : Bool) (m : Machine) (h : Wired m.board)
    (n : Nat) : Wired (forLoop n (saveByteStep filename opened) m).board := by
  induction n with
  | zero => exact h
  | succ k ih =>
    rw [forLoop_succ, saveByteStep_board]
    exact ReadRAM_wired _ ih

theorem SaveRAMToFile_ready (filename : String) (m : Machine) (h : Ready m) :
    Ready (SaveRAMToFile filename m) := by
  obtain ⟨hw, hi, hc⟩ := h
  unfold SaveRAMToFile
  by_cases h1 : m.sd.fileExists filename = true
  · rw [if_pos h1]
    exact println_ready _ _ (by rw [print_board, print_board]; exact hw)
      (by rw [print_board, print_board]; exact hi)
  · rw [if_neg h1]
    have hb : (if m.sd.canCreate filename = true
        then (Machine.mk m.board (m.sd.create filename) m.serial)
        else Machine.println filename (Machine.print "Could not create file " m)).board
        = m.board := by
      split
      · rfl
      · rw [println_board, print_board]
    dsimp only
    generalize (if m.sd.canCreate filename = true
        then (Machine.mk m.board (m.sd.create filename) m.serial)
        else Machine.println filename (Machine.print "Could not create file " m)) = m1 at hb ⊢
    have w2 := save_loop_wired filename (m.sd.canCreate filename)
      (Machine.mk (SetDataBus INPUT (SelectRAMChip HIGH m1.board)) m1.sd m1.serial)
      (SetDataBus_wired _ (SelectRAMChip_wired _ (by rw [hb]; exact hw))) RAM_CHIP_CAPACITY
    unfold Ready
    refine ⟨?_, ?_, ?_⟩
    · dsimp only
      exact SelectRAMChip_wired LOW (by rw [println_board]; exact w2)
    · exact SelectRAMChip_low_idle _
    · simp only [Machine.println]

/-- Every command that returns leaves the machine ready for the next. -/
theorem loopBody_ready (str : String) (m m2 : Machine) (h : Ready m)
    (hr : loopBody str m = Outcome.returned m2) : Ready m2 := by
  unfold loopBody at hr
  split_ifs at hr
  · cases hr; exact DumpRAM_ready m h
  · cases hs : strtok (toCharArray str 64) with
    | none => simp only [hs] at hr; cases hr; exact h
    | some pointer => simp only [hs] at hr; exact UploadFileToRAM_ready _ m m2 h hr
  · cases hr; exact FillWithByte_ready _ m h
  · cases hr; exact FillWithByte_ready _ m h
  · cases hr; exact FillWithByte_ready _ m h
  · cases hr; exact FillWithByte_ready _ m h
  · cases hs : strtok (toCharArray str 64) with
    | none => simp only [hs] at hr; cases hr; exact h
    | some pointer => simp only [hs] at hr; cases hr; exact SaveRAMToFile_ready _ m h
  · cases hr; exact h

theorem loop_ready (inputs : List String) (m m2 : Machine) (h : Ready m)
    (hr : loop inputs m = Outcome.returned m2) : Ready m2 := by
  induction inputs generalizing m with
  | nil => cases hr; exact h
  | cons str rest ih =>
    unfold loop at hr
    cases hb : loopBody str m with
    | returned m1 =>
      rw [hb] at hr
      exact ih m1 (loopBody_ready str m m1 h hb) hr
    | halted m1 =>
      rw [hb] at hr
      cases hr

/-- Started from reset, the sketch is between commands always in the state
the chip-access theorems ask for: the shift-register pins configured, the
chip not selected, the serial output at the start of a line. -/
theorem sketch_ready (inputs : List String) (mem : Nat → Byte) (sd : SDCard) (m2 : Machine)
    (hr : sketch inputs (resetMachine mem sd) = Outcome.returned m2) : Ready m2 := by
  unfold sketch setup at hr
  by_cases h1 : (!(resetMachine mem sd).sd.ok) = true
  · rw [if_pos h1] at hr
    cases hr
  · rw [if_neg h1] at hr
    have h0 : Ready { resetMachine mem sd with board := setupPins (resetMachine mem sd).board } :=
      ⟨setupPins_wired mem, setupPins_idle mem, rfl⟩
    cases hb : UploadFileToRAM RAM_DUMP_FILE_NAME
        { resetMachine mem sd with board := setupPins (resetMachine mem sd).board } with
    | returned m1 =>
      rw [hb] at hr
      exact loop_ready inputs m1 m2 (UploadFileToRAM_ready _ _ m1 h0 hb) hr
    | halted m1 =>
      rw [hb] at hr
      cases hr

/-- On the chip model an upload of a file of at most 65536 bytes passes its
own check: `UploadFileToRAM` returns, the cells below `floor(S / 128) * 128`
hold the file and the other cells are untouched. -/
theorem UploadFileToRAM_passes (filename : String) (m : Machine) (content : List Byte)
    (h : Ready m) (hf : m.sd.files filename = some content) (hl : content.length ≤ 65536) :
    ∃ m2, UploadFileToRAM filename m = Outcome.returned m2 ∧ m2.sd = m.sd ∧
      ∀ a, m2.board.mem a
        = if a < content.length / 128 * 128 then content.getD a 0 else m.board.mem a := by
  obtain ⟨hw, hi, -⟩ := h
  have hex : m.sd.fileExists filename = true := by
    simp only [SDCard.fileExists, hf, Option.isSome_some]
  have s0 := SelectRAMChip_high_selected m.board
  have w0 := SelectRAMChip_wired HIGH hw
  obtain ⟨hm, w1, s1, hsd⟩ := WriteFileToRAM_spec filename
    (Machine.println "Writing file to RAM" (Machine.mk (SelectRAMChip HIGH m.board) m.sd m.serial))
    content (by rw [println_sd]; exact hf) hl (by rw [println_board]; exact w0)
    (by rw [println_board]; exact s0)
  obtain ⟨hc, -, -, hsd2, hm2⟩ := CompareRAMContents_spec filename
    (Machine.println "Data upload complete." (WriteFileToRAM filename
      (Machine.println "Writing file to RAM"
        (Machine.mk (SelectRAMChip HIGH m.board) m.sd m.serial))))
    content (by rw [println_sd, hsd, println_sd]; exact hf) hl
    (by rw [println_board]; exact w1) (by rw [println_board]; exact s1)
  have hpass : (CompareRAMContents filename
      (Machine.println "Data upload complete." (WriteFileToRAM filename
        (Machine.println "Writing file to RAM"
          (Machine.mk (SelectRAMChip HIGH m.board) m.sd m.serial))))).1 = true := by
    rw [hc]
    intro a ha
    rw [println_board, hm a, if_pos ha]
  obtain ⟨C, hC⟩ : ∃ C, CompareRAMContents filename
      (Machine.println "Data upload complete." (WriteFileToRAM filename
        (Machine.println "Writing file to RAM"
          (Machine.mk (SelectRAMChip HIGH m.board) m.sd m.serial)))) = C := ⟨_, rfl⟩
  rw [hC] at hsd2 hm2 hpass
  refine ⟨Machine.mk (SelectRAMChip LOW (Machine.println "Integrity check passed." C.2).board)
    (Machine.println "Integrity check passed." C.2).sd
    (Machine.println "Integrity check passed." C.2).serial, ?_, ?_, ?_⟩
  · simp only [UploadFileToRAM, hex, Bool.not_true, Bool.false_eq_true, if_false, hC, hpass]
  · simp only [println_sd, hsd2, hsd]
  · intro a
    simp only [println_board, SelectRAMChip_low_mem, hm2, hm a, SelectRAMChip_high_mem _ hi,
      PART_SIZE]

/-! ## The claims -/

/-- C10. After `setup()` has made the shift-register pins outputs (clock
idle low), `SetAddress(a, outputEnable)` leaves the 16-bit address `a` on the
latched parallel outputs of the shift register, for either value of
`outputEnable`.  Its register accesses are, in this order: the eight bits of
the high byte, most significant first, each followed by a clock pulse; the
eight bits of the low byte likewise; the output-enable level; and the latch
line driven low, high, low.  So the first bit shifted is bit 15 of `a`. -/
theorem SetAddress_latches_address (a : Nat) (outputEnable : Bool) (b : Board)
    (ha : a < 65536) (hw : Wired b) :
    (SetAddress a outputEnable b).latched = a ∧
    (SetAddress a outputEnable b).trace = b.trace
      ++ shiftEvents (a / 256) ++ shiftEvents (a % 256)
      ++ [Event.write RAM_OE (!outputEnable), Event.write SHIFT_LATCH false,
          Event.write SHIFT_LATCH true, Event.write SHIFT_LATCH false] ∧
    (shiftEvents (a / 256)).head? = some (Event.write SHIFT_DATA (decide (a / 2 ^ 15 % 2 = 1))) := by
  refine ⟨?_, ?_, ?_⟩
  · rw [SetAddress_latched a outputEnable hw, Nat.mod_eq_of_lt ha]
  · rw [SetAddress_trace, Nat.mod_eq_of_lt ha]
  · have e : a / 256 / 2 ^ 7 % 2 = a / 2 ^ 15 % 2 := by
      rw [Nat.div_div_eq_div_mul]; norm_num
    simp only [shiftEvents, List.flatMap_cons, List.cons_append, List.head?_cons, e]

/-- Witness for C10: the board after the `pinMode` calls of `setup()`, and
address `0x1234` with output enabled. -/
theorem SetAddress_latches_address_witness :
    (0x1234 < 65536 ∧ Wired (setupPins (resetBoard (fun _ => 0)))) ∧
    (SetAddress 0x1234 true (setupPins (resetBoard (fun _ => 0)))).latched = 0x1234 :=
  ⟨⟨by decide, by decide⟩,
    (SetAddress_latches_address 0x1234 true (setupPins (resetBoard (fun _ => 0)))
      (by decide) (by decide)).1⟩

/-- C1. On a selected chip (`SelectRAMChip(HIGH)` done, shift-register pins
set up) with the data pins as outputs, `WriteRAM(a, d)`, the switch of the
data bus to input, and `ReadRAM(a)` return the byte `d`, for every address
`a` in `[0, 65535]` and every byte `d`.  `WriteRAM` leaves bit `k` of `d` on
data pin `Dk` (least significant bit on `D0`), the order `ReadRAM`
reassembles with `D7` as most significant bit. -/
theorem WriteRAM_ReadRAM_roundtrip (a : Nat) (d : Byte) (b : Board)
    (ha : a < 65536) (hw : Wired b) (hs : Selected b) (ho : BusOut b) :
    (ReadRAM a (SetDataBus INPUT (WriteRAM a d.val b))).1 = d.val ∧
    (WriteRAM a d.val b).mem a = d ∧
    (∀ k, k < 8 → (WriteRAM a d.val b).out (RAM_D0 + k) = decide (d.val / 2 ^ k % 2 = 1)) := by
  have hm : (WriteRAM a d.val b).mem a = d := by
    rw [WriteRAM_mem a d.val hw hs ho, Nat.mod_eq_of_lt ha, Function.update_same]
    exact Fin.ext (by simp [Fin.ofNat])
  refine ⟨?_, hm, ?_⟩
  · have w1 := SetDataBus_wired INPUT (WriteRAM_wired a d.val hw)
    have s1 := SetDataBus_selected INPUT (WriteRAM_selected a d.val hs)
    rw [ReadRAM_val a w1 s1 (SetDataBus_input _), Nat.mod_eq_of_lt ha,
      SetDataBus_mem _ _ (quiet_of_selected (WriteRAM_selected a d.val hs)), hm]
  · intro k hk
    have hd := d.isLt
    have t : ∀ x : Nat, (x % 2 != LOW) = decide (x % 2 = 1) := by
      intro x
      rcases Nat.mod_two_eq_zero_or_one x with e | e <;> simp [e, LOW]
    have hk8 : k = 0 ∨ k = 1 ∨ k = 2 ∨ k = 3 ∨ k = 4 ∨ k = 5 ∨ k = 6 ∨ k = 7 := by omega
    rw [WriteRAM_eq, Nat.mod_eq_of_lt hd]
    rcases hk8 with e | e | e | e | e | e | e | e <;> subst e <;>
      simp only [driveData, digitalWrite_out, Function.update_apply, RAM_D0, WRITE_EN, t] <;>
      simp [Nat.div_div_eq_div_mul]

/-- Witness for C1: the board after `setup()`'s pin set-up,
`SelectRAMChip(HIGH)` and `SetDataBus(OUTPUT)`; address `0x1234`, byte
`0xA7`. -/
theorem WriteRAM_ReadRAM_roundtrip_witness :
    (0x1234 < 65536 ∧
      Wired (SetDataBus OUTPUT (SelectRAMChip HIGH (setupPins (resetBoard (fun _ => 0))))) ∧
      Selected (SetDataBus OUTPUT (SelectRAMChip HIGH (setupPins (resetBoard (fun _ => 0)))))) ∧
    (ReadRAM 0x1234 (SetDataBus INPUT (WriteRAM 0x1234 (0xA7 : Byte).val
      (SetDataBus OUTPUT (SelectRAMChip HIGH (setupPins (resetBoard (fun _ => 0)))))))).1
      = (0xA7 : Byte).val :=
  ⟨⟨by decide, by decide, by decide⟩,
    (WriteRAM_ReadRAM_roundtrip 0x1234 0xA7
      (SetDataBus OUTPUT (SelectRAMChip HIGH (setupPins (resetBoard (fun _ => 0)))))
      (by decide) (by decide) (by decide) (SetDataBus_output _)).1⟩

/-- C7. After `FillWithByte(B)`, run on a board whose shift-register pins
`setup()` has configured, each of the 65536 cells holds `B`, whatever the
chip held before; selecting the chip again, switching the data bus to input
and calling `ReadRAM(a)` returns `B` for every address `a` in `[0, 65535]`;
and a second `FillWithByte(B)` leaves the same chip content as the first. -/
theorem FillWithByte_fills (B : Byte) (m : Machine) (hw : Wired m.board) :
    (∀ a, a < 65536 → (FillWithByte B.val m).board.mem a = B) ∧
    (∀ a, a < 65536 → (ReadRAM a (SetDataBus INPUT
      (SelectRAMChip HIGH (FillWithByte B.val m).board))).1 = B.val) ∧
    (FillWithByte B.val (FillWithByte B.val m)).board.mem = (FillWithByte B.val m).board.mem := by
  have h1 : ∀ a, a < 65536 → (FillWithByte B.val m).board.mem a = B := by
    intro a ha
    rw [FillWithByte_mem _ _ hw, if_pos ha, byte_ofNat_val]
  have w1 := FillWithByte_wired B.val m hw
  have i1 := FillWithByte_idle B.val m
  refine ⟨h1, ?_, ?_⟩
  · intro a ha
    have s2 := SelectRAMChip_high_selected (FillWithByte B.val m).board
    rw [ReadRAM_val a (SetDataBus_wired _ (SelectRAMChip_wired _ w1)) (SetDataBus_selected _ s2)
      (SetDataBus_input _), SetDataBus_mem _ _ (quiet_of_selected s2),
      SelectRAMChip_high_mem _ i1, Nat.mod_eq_of_lt ha, h1 a ha]
  · funext a
    rw [FillWithByte_mem _ _ w1]
    by_cases ha : a < 65536
    · rw [if_pos ha, h1 a ha, byte_ofNat_val]
    · rw [if_neg ha, SelectRAMChip_high_mem _ i1]

/-- Witness for C7: the machine after reset and the `pinMode` calls of
`setup()`, filled with `0x55`. -/
theorem FillWithByte_fills_witness :
    Wired (wiredMachine (fun _ => 0) emptyCard).board ∧
    ∀ a, a < 65536 →
      (FillWithByte (0x55 : Byte).val (wiredMachine (fun _ => 0) emptyCard)).board.mem a = 0x55 :=
  ⟨by decide, (FillWithByte_fills 0x55 (wiredMachine (fun _ => 0) emptyCard) (by decide)).1⟩

/-- C2. Chunk truncation law of the upload: for a file of size `S ≤ 65536`
and any chip content, after `WriteFileToRAM` on a selected chip every cell
at an address `a < floor(S / 128) * 128` holds file byte `a`, and every cell
at an address `a ≥ floor(S / 128) * 128` holds what it held before: the last
`S mod 128` bytes of the file are not written. -/
theorem WriteFileToRAM_truncates (filename : String) (m : Machine) (content : List Byte)
    (hf : m.sd.files filename = some content) (hl : content.length ≤ 65536)
    (hw : Wired m.board) (hs : Selected m.board) :
    (∀ a, a < content.length / 128 * 128 →
      content[a]? = some ((WriteFileToRAM filename m).board.mem a)) ∧
    (∀ a, content.length / 128 * 128 ≤ a →
      (WriteFileToRAM filename m).board.mem a = m.board.mem a) := by
  obtain ⟨hm, -, -, -⟩ := WriteFileToRAM_spec filename m content hf hl hw hs
  simp only [PART_SIZE] at hm
  constructor
  · intro a ha
    rw [hm a, if_pos ha]
    exact getElem?_eq_some_getD content a
      (lt_of_lt_of_le ha (Nat.div_mul_le_self content.length 128))
  · intro a ha
    rw [hm a, if_neg (by omega)]

/-- Witness for C2: a 130-byte file on a selected chip that holds zeros;
cell 127 takes file byte 127, cell 128 keeps what it held. -/
theorem WriteFileToRAM_truncates_witness :
    (sampleCard.files "data.bin" = some (List.replicate 130 7) ∧
      (List.replicate 130 (7 : Byte)).length ≤ 65536 ∧
      Wired (selectedMachine (fun _ => 0) sampleCard).board ∧
      Selected (selectedMachine (fun _ => 0) sampleCard).board) ∧
    (List.replicate 130 (7 : Byte))[127]?
      = some ((WriteFileToRAM "data.bin" (selectedMachine (fun _ => 0) sampleCard)).board.mem 127) ∧
    (WriteFileToRAM "data.bin" (selectedMachine (fun _ => 0) sampleCard)).board.mem 128
      = (selectedMachine (fun _ => 0) sampleCard).board.mem 128 :=
  ⟨⟨rfl, by simp, SelectRAMChip_wired HIGH (setupPins_wired _), SelectRAMChip_high_selected _⟩,
    (WriteFileToRAM_truncates "data.bin" (selectedMachine (fun _ => 0) sampleCard)
      (List.replicate 130 7) rfl (by simp) (SelectRAMChip_wired HIGH (setupPins_wired _))
      (SelectRAMChip_high_selected _)).1 127 (by simp),
    (WriteFileToRAM_truncates "data.bin" (selectedMachine (fun _ => 0) sampleCard)
      (List.replicate 130 7) rfl (by simp) (SelectRAMChip_wired HIGH (setupPins_wired _))
      (SelectRAMChip_high_selected _)).2 128 (by simp)⟩

/-- C3. Verification is exact over the truncated range: for a file of size
`S ≤ 65536` and any chip content, `CompareRAMContents` on a selected chip
returns true exactly when chip cell `a` equals file byte `a` for every
`a < floor(S / 128) * 128` (so one mismatch in that range makes it false);
and a second file and chip content that agree with the first below
`floor(S / 128) * 128` give the same result, whatever they hold beyond. -/
theorem CompareRAMContents_exact (filename : String) (m : Machine) (content : List Byte)
    (hf : m.sd.files filename = some content) (hl : content.length ≤ 65536)
    (hw : Wired m.board) (hs : Selected m.board) :
    ((CompareRAMContents filename m).1 = true ↔
      ∀ a, a < content.length / 128 * 128 → content[a]? = some (m.board.mem a)) ∧
    (∀ (m2 : Machine) (content2 : List Byte), m2.sd.files filename = some content2 →
      content2.length ≤ 65536 → Wired m2.board → Selected m2.board →
      content2.length / 128 = content.length / 128 →
      (∀ a, a < content.length / 128 * 128 →
        content2[a]? = content[a]? ∧ m2.board.mem a = m.board.mem a) →
      (CompareRAMContents filename m2).1 = (CompareRAMContents filename m).1) := by
  have key : ∀ (m1 : Machine) (c1 : List Byte), m1.sd.files filename = some c1 →
      c1.length ≤ 65536 → Wired m1.board → Selected m1.board →
      ((CompareRAMContents filename m1).1 = true ↔
        ∀ a, a < c1.length / 128 * 128 → c1[a]? = some (m1.board.mem a)) := by
    intro m1 c1 h1 h2 h3 h4
    obtain ⟨hc, -⟩ := CompareRAMContents_spec filename m1 c1 h1 h2 h3 h4
    simp only [PART_SIZE] at hc
    rw [hc]
    constructor
    · intro h a ha
      rw [getElem?_eq_some_getD c1 a (lt_of_lt_of_le ha (Nat.div_mul_le_self c1.length 128)),
        h a ha]
    · intro h a ha
      have := h a ha
      rw [getElem?_eq_some_getD c1 a (lt_of_lt_of_le ha (Nat.div_mul_le_self c1.length 128))]
        at this
      exact Option.some.inj this
  refine ⟨key m content hf hl hw hs, ?_⟩
  intro m2 content2 hf2 hl2 hw2 hs2 hlen hag
  have k1 := key m content hf hl hw hs
  have k2 := key m2 content2 hf2 hl2 hw2 hs2
  rw [hlen] at k2
  have : (CompareRAMContents filename m2).1 = true ↔ (CompareRAMContents filename m).1 = true := by
    rw [k1, k2]
    constructor
    · intro h a ha
      rw [← (hag a ha).1, ← (hag a ha).2]; exact h a ha
    · intro h a ha
      rw [(hag a ha).1, (hag a ha).2]; exact h a ha
  cases h1 : (CompareRAMContents filename m2).1 <;> cases h2 : (CompareRAMContents filename m).1 <;>
    simp_all

/-- Witness for C3: the 130-byte file of bytes `0x07` against a selected
chip that holds `0x07` everywhere: the comparison returns true. -/
theorem CompareRAMContents_exact_witness :
    (sampleCard.files "data.bin" = some (List.replicate 130 7) ∧
      (List.replicate 130 (7 : Byte)).length ≤ 65536 ∧
      Wired (selectedMachine (fun _ => 7) sampleCard).board ∧
      Selected (selectedMachine (fun _ => 7) sampleCard).board) ∧
    (CompareRAMContents "data.bin" (selectedMachine (fun _ => 7) sampleCard)).1 = true :=
  ⟨⟨rfl, by simp, SelectRAMChip_wired HIGH (setupPins_wired _), SelectRAMChip_high_selected _⟩,
    ((CompareRAMContents_exact "data.bin" (selectedMachine (fun _ => 7) sampleCard)
      (List.replicate 130 7) rfl (by simp) (SelectRAMChip_wired HIGH (setupPins_wired _))
      (SelectRAMChip_high_selected _)).1).mpr (by
        intro a ha
        have h1 : a < 130 := by
          rw [List.length_replicate] at ha
          omega
        have h2 : (selectedMachine (fun _ => 7) sampleCard).board.mem a = 7 := by
          show (SelectRAMChip HIGH (setupPins (resetBoard (fun _ => 7)))).mem a = 7
          rw [SelectRAMChip_high_mem _ (setupPins_idle _), setupPins_mem]
        rw [h2, List.getElem?_eq_getElem (by rw [List.length_replicate]; exact h1),
          List.getElem_replicate])⟩

/-- C6. For a filename that exists on the card, `SaveRAMToFile` prints
`File with name <filename> already exists.` and returns with the card
unchanged (no file written or created) and the board unchanged: no pin was
touched, so the chip was not selected and no cell was read. -/
theorem SaveRAMToFile_existing (filename : String) (m : Machine)
    (h : m.sd.fileExists filename = true) :
    (SaveRAMToFile filename m).sd = m.sd ∧
    (SaveRAMToFile filename m).board = m.board ∧
    (SaveRAMToFile filename m).serial =
      { lines := m.serial.lines
          ++ [m.serial.cur ++ "File with name " ++ filename ++ " already exists."],
        cur := "" } := by
  simp only [SaveRAMToFile, h, if_true, Machine.print, Machine.println]
  exact ⟨trivial, trivial, trivial⟩

/-- Witness for C6: `data.bin` exists on the sample card. -/
theorem SaveRAMToFile_existing_witness :
    sampleCard.fileExists "data.bin" = true ∧
    (SaveRAMToFile "data.bin" (wiredMachine (fun _ => 0) sampleCard)).sd = sampleCard :=
  ⟨rfl, (SaveRAMToFile_existing "data.bin" (wiredMachine (fun _ => 0) sampleCard) rfl).1⟩

/-- C5. `UploadFileToRAM` ends in the endless loop exactly when the file
exists and `CompareRAMContents`, run after the upload, returns false.  A
halt is final: when `setup()` halts the sketch ends in the state of the halt
whatever arrives on the serial port, and when a command halts the commands
after it are not processed. -/
theorem UploadFileToRAM_halts_iff (filename : String) (m : Machine) :
    ((UploadFileToRAM filename m).isHalted = true ↔
      (m.sd.fileExists filename = true ∧
        (CompareRAMContents filename
          ((WriteFileToRAM filename
            (Machine.println "Writing file to RAM"
              { m with board := SelectRAMChip HIGH m.board })).println
            "Data upload complete.")).1 = false)) ∧
    (∀ inputs, (setup m).isHalted = true → sketch inputs m = setup m) ∧
    (∀ str rest, (loopBody str m).isHalted = true → loop (str :: rest) m = loopBody str m) := by
  refine ⟨?_, ?_, ?_⟩
  · unfold UploadFileToRAM
    cases h1 : m.sd.fileExists filename
    · simp [Outcome.isHalted]
    · cases h2 : (CompareRAMContents filename
          ((WriteFileToRAM filename
            (Machine.println "Writing file to RAM"
              { m with board := SelectRAMChip HIGH m.board })).println
            "Data upload complete.")).1
      · simp [Outcome.isHalted, h2]
      · simp [Outcome.isHalted, h2]
  · intro inputs h
    exact andThen_halted _ _ h
  · intro str rest h
    exact andThen_halted _ _ h

/-- Witness for C5: with an oversized `data.bin` (its byte 65536 differs
from its byte 0) `setup()` halts and the commands `cdump` and `faa` that
follow are not processed; with such a file called `load`, the command
`load x` halts and the `faa` after it is not processed. -/
theorem UploadFileToRAM_halts_iff_witness :
    ((setup (resetMachine (fun _ => 0) (oversizedCard "data.bin"))).isHalted = true ∧
      (loopBody "load x" (wiredMachine (fun _ => 0) (oversizedCard "load"))).isHalted = true) ∧
    sketch ["cdump", "faa"] (resetMachine (fun _ => 0) (oversizedCard "data.bin"))
      = setup (resetMachine (fun _ => 0) (oversizedCard "data.bin")) ∧
    loop ["load x", "faa"] (wiredMachine (fun _ => 0) (oversizedCard "load"))
      = loopBody "load x" (wiredMachine (fun _ => 0) (oversizedCard "load")) :=
  ⟨⟨setup_halts_on_oversized_file _, load_halts_on_oversized_file _ "x"⟩,
    (UploadFileToRAM_halts_iff "data.bin"
      (resetMachine (fun _ => 0) (oversizedCard "data.bin"))).2.1 _
      (setup_halts_on_oversized_file _),
    (UploadFileToRAM_halts_iff "load"
      (wiredMachine (fun _ => 0) (oversizedCard "load"))).2.2 "load x" ["faa"]
      (load_halts_on_oversized_file _ "x")⟩

/-- C4. The dispatcher passes the command word, not the filename: on
`load <name>` it calls `UploadFileToRAM("load")` and on `fdump <name>` it
calls `SaveRAMToFile("fdump")`, whatever `<name>` is, because `strtok` is
called once and returns the first token of the line. -/
theorem loopBody_passes_command_word (name : String) (m : Machine) :
    loopBody ("load " ++ name) m = UploadFileToRAM "load" m ∧
    loopBody ("fdump " ++ name) m = Outcome.returned (SaveRAMToFile "fdump" m) :=
  ⟨loopBody_load name m, loopBody_fdump name m⟩

/-- C8, as the code has it.  With every chip cell holding `0xAA`, `DumpRAM`,
run between two commands (pins configured by `setup()`, chip not selected,
serial output at the start of a line), emits exactly 2048 rows.  Row `i` is
the four lowercase hexadecimal digits of its start address `32 * i`, a colon
and two spaces, then 32 times the token `aa` followed by one space, so that
a row ends in a space.  The row addresses run `0000`, `0020`, `0040`, ...,
`ffe0`. -/
theorem DumpRAM_rows_aa (m : Machine) (h : Ready m)
    (hm : ∀ a, a < 65536 → m.board.mem a = 0xAA) :
    (DumpRAM m).serial.lines = m.serial.lines ++ (List.range 2048).map (fun i =>
      String.mk ([hexDigit (32 * i / 4096), hexDigit (32 * i / 256 % 16),
        hexDigit (32 * i / 16 % 16), hexDigit (32 * i % 16)] ++ ":  ".toList
        ++ (List.replicate 32 "aa ".toList).flatten)) ∧
    (DumpRAM m).serial.cur = "" ∧
    ((DumpRAM m).serial.lines.drop m.serial.lines.length).length = 2048 := by
  have h := DumpRAM_lines m h.1 h.2.1 h.2.2
  have e : (List.range 2048).map (dumpRow m.board.mem) = (List.range 2048).map (fun i =>
      String.mk ([hexDigit (32 * i / 4096), hexDigit (32 * i / 256 % 16),
        hexDigit (32 * i / 16 % 16), hexDigit (32 * i % 16)] ++ ":  ".toList
        ++ (List.replicate 32 "aa ".toList).flatten)) := by
    apply List.map_congr_left
    intro i hi2
    exact dumpRow_aa _ i (List.mem_range.mp hi2) hm
  rw [h, e]
  refine ⟨rfl, rfl, ?_⟩
  simp

/-- Witness for C8: the machine after reset and the `pinMode` calls of
`setup()`, every cell holding `0xAA`; the first row of its dump. -/
theorem DumpRAM_rows_aa_witness :
    (Ready (wiredMachine (fun _ => 0xAA) emptyCard) ∧
      ∀ a, a < 65536 → (wiredMachine (fun _ => 0xAA) emptyCard).board.mem a = 0xAA) ∧
    (DumpRAM (wiredMachine (fun _ => 0xAA) emptyCard)).serial.lines.head? = some
      "0000:  aa aa aa aa aa aa aa aa aa aa aa aa aa aa aa aa aa aa aa aa aa aa aa aa aa aa aa aa aa aa aa aa " :=
  ⟨⟨⟨setupPins_wired _, setupPins_idle _, rfl⟩, fun a _ => by
      show (setupPins (resetBoard (fun _ => 0xAA))).mem a = 0xAA
      rw [setupPins_mem]⟩,
    by
      rw [(DumpRAM_rows_aa (wiredMachine (fun _ => 0xAA) emptyCard)
        ⟨setupPins_wired _, setupPins_idle _, rfl⟩ (fun a _ => by
          show (setupPins (resetBoard (fun _ => 0xAA))).mem a = 0xAA
          rw [setupPins_mem])).1]
      show ([] ++ (List.range (2047 + 1)).map _).head? = _
      rw [List.nil_append, List.range_succ_eq_map, List.map_cons, List.head?_cons]
      decide⟩

/-- Counterexample to C8 as stated: on a chip filled with `0xAA` the dump
has 2048 rows and the last one starts with the address `ffe0`, not `fff0`,
and ends in a space after the last token. -/
theorem DumpRAM_last_row_ffe0 :
    (DumpRAM (wiredMachine (fun _ => 0xAA) emptyCard)).serial.lines.length = 2048 ∧
    (DumpRAM (wiredMachine (fun _ => 0xAA) emptyCard)).serial.lines.getLast? = some
      "ffe0:  aa aa aa aa aa aa aa aa aa aa aa aa aa aa aa aa aa aa aa aa aa aa aa aa aa aa aa aa aa aa aa aa " := by
  have h := DumpRAM_lines (wiredMachine (fun _ => 0xAA) emptyCard) (setupPins_wired _)
    (setupPins_idle _) rfl
  have hmem : (wiredMachine (fun _ => 0xAA) emptyCard).board.mem = fun _ => 0xAA :=
    setupPins_mem _
  have hl : (wiredMachine (fun _ => 0xAA) emptyCard).serial.lines = [] := rfl
  rw [h, hmem, hl]
  refine ⟨by simp, ?_⟩
  have e : dumpRow (fun _ => (0xAA : Byte)) 2047 =
      "ffe0:  aa aa aa aa aa aa aa aa aa aa aa aa aa aa aa aa aa aa aa aa aa aa aa aa aa aa aa aa aa aa aa aa " := by
    decide
  show ([] ++ (List.range (2047 + 1)).map (dumpRow fun _ => (0xAA : Byte))).getLast? = _
  rw [List.range_succ, List.map_append, List.nil_append, List.map_cons, List.map_nil,
    List.getLast?_append, e]
  rfl

/-- C9, what the code does on a command word without a filename: the line
`load` calls `UploadFileToRAM("load")` and the line `fdump` calls
`SaveRAMToFile("fdump")`, because `strtok` returns the command word itself
and the null check never fails.  On an empty card `load` therefore prints
`Could not find dump file load`, and `fdump` creates a file named `fdump`
of 65536 bytes. -/
theorem loopBody_bare_command_not_ignored :
    (∀ m, loopBody "load" m = UploadFileToRAM "load" m) ∧
    (∀ m, loopBody "fdump" m = Outcome.returned (SaveRAMToFile "fdump" m)) ∧
    (loopBody "load" (wiredMachine (fun _ => 0) emptyCard)).machine.serial
      = { lines := ["Could not find dump file load"], cur := "" } ∧
    (∃ l, (loopBody "fdump" (wiredMachine (fun _ => 0) emptyCard)).machine.sd.files "fdump"
      = some l ∧ l.length = 65536) := by
  refine ⟨loopBody_bare_load, loopBody_bare_fdump, ?_, ?_⟩
  · rw [loopBody_bare_load]
    rfl
  · rw [loopBody_bare_fdump]
    exact SaveRAMToFile_creates "fdump" (wiredMachine (fun _ => 0) emptyCard) rfl rfl
end RAMUploader
